import Mathlib

/-!
Verification of the binary-man surface extractor against its specification.

The development shallow-embeds the text-processing and decision logic of
`src/validate.rs`, `src/planner.rs`, `src/help.rs` and `src/main.rs`.
Captured byte streams are modelled as decoded text (`List Char`); the
repository only compares and searches them as text after a lossy UTF-8
decode, so this is faithful on the ASCII diagnostics the code targets.
Rust's `to_lowercase` / `is_ascii_alphanumeric` are modelled with Lean's
ASCII `Char.toLower` / `Char.isAlphanum`, which agree on ASCII input.

The repository ships two historical variants of `validate.rs`; the file at
`src/validate.rs` is the legacy claim-validator copy, while the
surface-extractor variant that `src/main.rs` compiles against
(`infer_binding`, `run_existence_probe`, `ProbeRun`, the attribution
fallbacks) is absent from the source tree.  Definitions for that missing
code are explicitly marked `Modelled from the spec:`; everything else is
translated from the source files.
-/

namespace BinaryMan

/-- Apostrophe character (written via its code point). -/
def quoteSingle : Char := Char.ofNat 39

/-- Double-quote character. -/
def quoteDouble : Char := Char.ofNat 34

/-- Backtick character. -/
def quoteBack : Char := Char.ofNat 96

/-- The three quote characters the extraction regexes treat as quoting:
`'`, `"` and backtick. -/
def quotes3 : List Char := [quoteSingle, quoteDouble, quoteBack]

/-- The two quote characters of the getopt-style regexes: `'` and `"`. -/
def quotes2 : List Char := [quoteSingle, quoteDouble]

/-- Lower-case a character sequence (models Rust `str::to_lowercase`,
which agrees with `Char.toLower` on ASCII). -/
def lowerStr (s : List Char) : List Char := s.map Char.toLower

/-- Substring containment (models Rust `str::contains` for string needles). -/
def containsSub (l pat : List Char) : Bool :=
  match l with
  | [] => pat.isEmpty
  | _ :: rest => pat.isPrefixOf l || containsSub rest pat

/-- `find_marker` of validate.rs: first marker contained in `output`. -/
def find_marker (output : List Char) (markers : List (List Char)) : Option (List Char) :=
  markers.find? (fun marker => containsSub output marker)

/-- `contains_any` of validate.rs. -/
def contains_any (output : List Char) (markers : List (List Char)) : Bool :=
  markers.any (fun marker => containsSub output marker)

/-- `UNRECOGNIZED_MARKERS` of validate.rs. -/
def UNRECOGNIZED_MARKERS : List (List Char) :=
  ["unrecognized option", "unknown option", "invalid option", "illegal option",
   "unknown flag", "unrecognized flag", "invalid flag", "unknown switch",
   "invalid switch"].map String.data

/-- `AMBIGUOUS_MARKERS` of validate.rs. -/
def AMBIGUOUS_MARKERS : List (List Char) :=
  ["ambiguous option", "option is ambiguous"].map String.data

/-- `ARGUMENT_ERROR_MARKERS` of validate.rs. -/
def ARGUMENT_ERROR_MARKERS : List (List Char) :=
  ["requires an argument", "requires a value", "option requires an argument",
   "option requires a value", "missing argument", "missing value",
   "invalid argument"].map String.data

/-- `MISSING_ARGUMENT_MARKERS` of validate.rs. -/
def MISSING_ARGUMENT_MARKERS : List (List Char) :=
  ["requires an argument", "requires a value", "option requires an argument",
   "option requires a value", "missing argument", "missing value"].map String.data

/-- `ARGUMENT_NOT_ALLOWED_MARKERS` of validate.rs. -/
def ARGUMENT_NOT_ALLOWED_MARKERS : List (List Char) :=
  ["doesn't allow an argument", "does not allow an argument",
   "doesn't allow a value", "does not allow a value",
   "doesn't take an argument", "does not take an argument",
   "doesn't take a value", "does not take a value",
   "doesn't accept an argument", "does not accept an argument",
   "takes no argument", "takes no value", "argument not allowed",
   "value not allowed"].map String.data

/-- `INVALID_ARGUMENT_MARKERS` of validate.rs. -/
def INVALID_ARGUMENT_MARKERS : List (List Char) :=
  ["invalid argument", "invalid value"].map String.data

/-- Whitespace as matched by the extraction regexes' `\s`. -/
def isSpaceC (c : Char) : Bool := c.isWhitespace

/-- Match a literal pattern (already lower-cased) case-insensitively at the
head of `l`, returning the rest. -/
def matchLit (pat : List Char) (l : List Char) : Option (List Char) :=
  match pat, l with
  | [], rest => some rest
  | _ :: _, [] => none
  | p :: ps, c :: cs => if c.toLower == p then matchLit ps cs else none

/-- Leftmost-first alternation of literal patterns. -/
def matchAltLit (pats : List (List Char)) (l : List Char) : Option (List Char) :=
  match pats with
  | [] => none
  | p :: ps =>
    match matchLit p l with
    | some rest => some rest
    | none => matchAltLit ps l

/-- `\s+`: one or more whitespace characters (greedy). -/
def spaces1 (l : List Char) : Option (List Char) :=
  match l with
  | c :: cs => if isSpaceC c then some (cs.dropWhile isSpaceC) else none
  | [] => none

/-- `\s*`: any whitespace (greedy). -/
def spaces0 (l : List Char) : List Char := l.dropWhile isSpaceC

/-- An optional quote character out of `qs` (greedy; the patterns never
need to backtrack over it, see the matcher comments). -/
def dropQuote (qs : List Char) (l : List Char) : List Char :=
  match l with
  | c :: cs => if qs.contains c then cs else l
  | [] => l

/-- A token character for the captures `[^\s'"`]+`. -/
def isTokChar (c : Char) : Bool := !isSpaceC c && !quotes3.contains c

/-- `[^\s'"`]+` (greedy): the captured token and the rest. -/
def takeTok (l : List Char) : Option (List Char × List Char) :=
  match l.takeWhile isTokChar with
  | [] => none
  | tok => some (tok, l.drop tok.length)

/-- `(?:\s+|[:=])` followed by `\s*`. -/
def sepSpaceOrColonEq (l : List Char) : Option (List Char) :=
  match l with
  | c :: cs =>
    if isSpaceC c then some (cs.dropWhile isSpaceC)
    else if c == ':' || c == '=' then some (cs.dropWhile isSpaceC)
    else none
  | [] => none

/-- `(?:an?\s+)?` followed by one of `alts` (the article branches are
mutually exclusive with the bare branch on any input, so ordered trial
equals the regex's leftmost-first backtracking). -/
def matchArticleThen (alts : List (List Char)) (l : List Char) : Option (List Char) :=
  match (do
    let r ← matchLit "an".data l
    let r ← spaces1 r
    matchAltLit alts r) with
  | some r => some r
  | none =>
    match (do
      let r ← matchLit "a".data l
      let r ← spaces1 r
      matchAltLit alts r) with
    | some r => some r
    | none => matchAltLit alts l

/-- Run a single-match scanner over every start position, restarting after
each match's end, as `Regex::captures_iter` does.  `fuel` bounds the
recursion; callers pass `l.length + 1`, which each step stays under since a
match consumes at least one character. -/
def scanAll (m : List Char → Option (List Char × List Char)) :
    Nat → List Char → List (List Char)
  | 0, _ => []
  | _ + 1, [] => []
  | fuel + 1, c :: rest =>
    match m (c :: rest) with
    | some (tok, after) => tok :: scanAll m fuel after
    | none => scanAll m fuel rest

/-- `clean_option_token` of validate.rs: trim `, ; : . ) ] (` from both ends. -/
def clean_option_token (tok : List Char) : List Char :=
  let p := fun c => [',', ';', ':', '.', ')', ']', '('].contains c
  ((tok.dropWhile p).reverse.dropWhile p).reverse

/-- The push-if-clean filter shared by the extraction loops: drop captures
whose cleaned form is empty, `-` or `--`. -/
def keepCleaned (toks : List (List Char)) : List (List Char) :=
  toks.filterMap (fun t =>
    let c := clean_option_token t
    if c = [] ∨ c = ['-'] ∨ c = ['-', '-'] then none else some c)

/-- The `direct` regex of `extract_reported_options`:
`(?i)(?:unrecognized|unknown|invalid|illegal)\s+(?:option|flag|switch)(?:\s+|[:=])\s*['"`]?([^\s'"`]+)`. -/
def matchUnrecDirect (l : List Char) : Option (List Char × List Char) := do
  let r ← matchAltLit (["unrecognized", "unknown", "invalid", "illegal"].map String.data) l
  let r ← spaces1 r
  let r ← matchAltLit (["option", "flag", "switch"].map String.data) r
  let r ← sepSpaceOrColonEq r
  let r := dropQuote quotes3 r
  takeTok r

/-- The `getopt` regex of `extract_reported_options`:
`(?i)(?:invalid|illegal|unknown|unrecognized)\s+option\s+--\s*['"]?([A-Za-z0-9])['"]?`.
The source pushes the capture as `-<letter>`. -/
def matchUnrecGetopt (l : List Char) : Option (List Char × List Char) := do
  let r ← matchAltLit (["invalid", "illegal", "unknown", "unrecognized"].map String.data) l
  let r ← spaces1 r
  let r ← matchLit "option".data r
  let r ← spaces1 r
  let r ← matchLit "--".data r
  let r := spaces0 r
  let r := dropQuote quotes2 r
  match r with
  | c :: cs => if c.isAlphanum then some (['-', c], dropQuote quotes2 cs) else none
  | [] => none

/-- `extract_reported_options` of validate.rs. -/
def extract_reported_options (output : List Char) : List (List Char) :=
  keepCleaned (scanAll matchUnrecDirect (output.length + 1) output)
    ++ scanAll matchUnrecGetopt (output.length + 1) output

/-- First regex of `extract_missing_argument_options`:
`(?i)(?:option|flag|switch)\s+['"`]?([^\s'"`]+)['"`]?\s+requires\s+(?:an?\s+)?(?:argument|value)`. -/
def matchMissingDirect (l : List Char) : Option (List Char × List Char) := do
  let r ← matchAltLit (["option", "flag", "switch"].map String.data) l
  let r ← spaces1 r
  let r := dropQuote quotes3 r
  let (tok, r) ← takeTok r
  let r := dropQuote quotes3 r
  let r ← spaces1 r
  let r ← matchLit "requires".data r
  let r ← spaces1 r
  let r ← matchArticleThen (["argument", "value"].map String.data) r
  return (tok, r)

/-- Second regex: `(?i)missing\s+(?:argument|value)\s+for\s+['"`]?([^\s'"`]+)['"`]?`. -/
def matchMissingFor (l : List Char) : Option (List Char × List Char) := do
  let r ← matchLit "missing".data l
  let r ← spaces1 r
  let r ← matchAltLit (["argument", "value"].map String.data) r
  let r ← spaces1 r
  let r ← matchLit "for".data r
  let r ← spaces1 r
  let r := dropQuote quotes3 r
  let (tok, r) ← takeTok r
  return (tok, dropQuote quotes3 r)

/-- Third regex: `(?i)requires\s+(?:an?\s+)?(?:argument|value)\s+for\s+['"`]?([^\s'"`]+)['"`]?`. -/
def matchRequiredFor (l : List Char) : Option (List Char × List Char) := do
  let r ← matchLit "requires".data l
  let r ← spaces1 r
  let r ← matchArticleThen (["argument", "value"].map String.data) r
  let r ← spaces1 r
  let r ← matchLit "for".data r
  let r ← spaces1 r
  let r := dropQuote quotes3 r
  let (tok, r) ← takeTok r
  return (tok, dropQuote quotes3 r)

/-- Fourth regex:
`(?i)option\s+requires\s+(?:an?\s+)?(?:argument|value)\s+--\s*['"]?([A-Za-z0-9])['"]?`. -/
def matchMissingGetopt (l : List Char) : Option (List Char × List Char) := do
  let r ← matchLit "option".data l
  let r ← spaces1 r
  let r ← matchLit "requires".data r
  let r ← spaces1 r
  let r ← matchArticleThen (["argument", "value"].map String.data) r
  let r ← spaces1 r
  let r ← matchLit "--".data r
  let r := spaces0 r
  let r := dropQuote quotes2 r
  match r with
  | c :: cs => if c.isAlphanum then some (['-', c], dropQuote quotes2 cs) else none
  | [] => none

/-- `extract_missing_argument_options` of validate.rs. -/
def extract_missing_argument_options (output : List Char) : List (List Char) :=
  keepCleaned (scanAll matchMissingDirect (output.length + 1) output)
    ++ keepCleaned (scanAll matchMissingFor (output.length + 1) output)
    ++ keepCleaned (scanAll matchRequiredFor (output.length + 1) output)
    ++ scanAll matchMissingGetopt (output.length + 1) output

/-- `does(?:n't| not)`: the two alternatives after the literal `does`. -/
def matchDoesNot (l : List Char) : Option (List Char) := do
  let r ← matchLit "does".data l
  match matchLit ['n', quoteSingle, 't'] r with
  | some r2 => some r2
  | none => matchLit " not".data r

/-- First regex of `extract_argument_not_allowed_options`:
`(?i)option\s+['"`]?([^\s'"`]+)['"`]?\s+does(?:n't| not)\s+(?:allow|take|accept)\s+(?:an?\s+)?(?:argument|value)`. -/
def matchNotAllowedDirect (l : List Char) : Option (List Char × List Char) := do
  let r ← matchLit "option".data l
  let r ← spaces1 r
  let r := dropQuote quotes3 r
  let (tok, r) ← takeTok r
  let r := dropQuote quotes3 r
  let r ← spaces1 r
  let r ← matchDoesNot r
  let r ← spaces1 r
  let r ← matchAltLit (["allow", "take", "accept"].map String.data) r
  let r ← spaces1 r
  let r ← matchArticleThen (["argument", "value"].map String.data) r
  return (tok, r)

/-- Second regex: `(?i)option\s+['"`]?([^\s'"`]+)['"`]?\s+takes?\s+no\s+(?:argument|value)`. -/
def matchTakesNo (l : List Char) : Option (List Char × List Char) := do
  let r ← matchLit "option".data l
  let r ← spaces1 r
  let r := dropQuote quotes3 r
  let (tok, r) ← takeTok r
  let r := dropQuote quotes3 r
  let r ← spaces1 r
  let r ← matchLit "take".data r
  let r := match r with
    | c :: cs => if c.toLower == 's' then cs else r
    | [] => r
  let r ← spaces1 r
  let r ← matchLit "no".data r
  let r ← spaces1 r
  let r ← matchAltLit (["argument", "value"].map String.data) r
  return (tok, r)

/-- Third regex: `(?i)(?:argument|value)\s+not\s+allowed\s+for\s+['"`]?([^\s'"`]+)['"`]?`. -/
def matchNotAllowedFor (l : List Char) : Option (List Char × List Char) := do
  let r ← matchAltLit (["argument", "value"].map String.data) l
  let r ← spaces1 r
  let r ← matchLit "not".data r
  let r ← spaces1 r
  let r ← matchLit "allowed".data r
  let r ← spaces1 r
  let r ← matchLit "for".data r
  let r ← spaces1 r
  let r := dropQuote quotes3 r
  let (tok, r) ← takeTok r
  return (tok, dropQuote quotes3 r)

/-- `extract_argument_not_allowed_options` of validate.rs. -/
def extract_argument_not_allowed_options (output : List Char) : List (List Char) :=
  keepCleaned (scanAll matchNotAllowedDirect (output.length + 1) output)
    ++ keepCleaned (scanAll matchTakesNo (output.length + 1) output)
    ++ keepCleaned (scanAll matchNotAllowedFor (output.length + 1) output)

/-- The tail of the invalid-argument regex after the quoted value:
`['"`]?\s+for\s+['"`]?([^\s'"`]+)['"`]?`. -/
def matchInvalidTail (l : List Char) : Option (List Char × List Char) := do
  let r := dropQuote quotes3 l
  let r ← spaces1 r
  let r ← matchLit "for".data r
  let r ← spaces1 r
  let r := dropQuote quotes3 r
  let (tok, r) ← takeTok r
  return (tok, dropQuote quotes3 r)

/-- Greedy backtracking over the value part `[^'"`]+`: try the longest
value first, shrinking until the tail matches (the regex engine's
leftmost-first semantics for this pattern). -/
def tryValueSplits (l : List Char) : Nat → Option (List Char × List Char)
  | 0 => none
  | k + 1 =>
    match matchInvalidTail (l.drop (k + 1)) with
    | some res => some res
    | none => tryValueSplits l k

/-- The regex of `extract_invalid_argument_options`:
`(?i)invalid\s+(?:argument|value)\s+['"`]?[^'"`]+['"`]?\s+for\s+['"`]?([^\s'"`]+)['"`]?`. -/
def matchInvalidArg (l : List Char) : Option (List Char × List Char) := do
  let r ← matchLit "invalid".data l
  let r ← spaces1 r
  let r ← matchAltLit (["argument", "value"].map String.data) r
  let r ← spaces1 r
  let r := dropQuote quotes3 r
  let v := r.takeWhile (fun c => !quotes3.contains c)
  if v.isEmpty then none else tryValueSplits r v.length

/-- `extract_invalid_argument_options` of validate.rs. -/
def extract_invalid_argument_options (output : List Char) : List (List Char) :=
  keepCleaned (scanAll matchInvalidArg (output.length + 1) output)

/-- `option_matches` of validate.rs (the variant at src/validate.rs:837):
exact equality after lower-casing, or a single-letter report against a
two-character `-X` tested option. -/
def option_matches (reported tested : List Char) : Bool :=
  let r := lowerStr reported
  let t := lowerStr tested
  if r = t then true
  else if r.length = 1 ∧ t.length = 2 ∧ t.head? = some '-' then
    (t.drop 1).head? == r.head?
  else false

/-- `ValidationStatus` of schema.rs. -/
inductive ValidationStatus
  | confirmed
  | refuted
  | undetermined
deriving DecidableEq, Repr

/-- `BindingKind` of schema.rs. -/
inductive BindingKind
  | noValue
  | required
  | optionalValue
deriving DecidableEq, Repr

/-- `ExecutionAttempt` of validate.rs (captured streams as decoded text). -/
structure ExecutionAttempt where
  args : List String
  exit_code : Option Int
  stdout : List Char
  stderr : List Char
  spawn_error : Option (List Char)
deriving Repr

/-- Join with a separator (models `Vec::join`). -/
def joinSep (sep : List Char) : List (List Char) → List Char
  | [] => []
  | [x] => x
  | x :: xs => x ++ sep ++ joinSep sep xs

/-- Escaping of Rust's `Debug` for the string contents the notes quote
(quote, backslash and the common control characters; the diagnostics the
tool formats contain nothing beyond these). -/
def rustEscapeChar (c : Char) : List Char :=
  if c = quoteDouble then ['\\', quoteDouble]
  else if c = '\\' then ['\\', '\\']
  else if c = '\n' then ['\\', 'n']
  else if c = '\t' then ['\\', 't']
  else if c = '\r' then ['\\', 'r']
  else [c]

/-- Rust `{:?}` rendering of a `Vec<String>`, as the notes embed it. -/
def rustDebugList (items : List (List Char)) : List Char :=
  '[' :: joinSep ", ".data
      (items.map (fun s => quoteDouble :: (s.flatMap rustEscapeChar) ++ [quoteDouble]))
    ++ [']']

/-- Rust `Display` of an `i32` (Lean's `Int` rendering agrees). -/
def rustDisplayInt (i : Int) : List Char := (toString i).data

/-- `classify_attempt` of validate.rs: the per-probe existence
classification. -/
def classify_attempt (option : List Char) (attempt : ExecutionAttempt) :
    ValidationStatus × Option (List Char) :=
  match attempt.spawn_error with
  | some err => (.undetermined, some ("spawn failed: ".data ++ err))
  | none =>
  match attempt.exit_code with
  | none => (.undetermined, some "terminated without exit code".data)
  | some exit_code =>
    let output := attempt.stdout ++ attempt.stderr
    let output_lower := lowerStr output
    match find_marker output_lower UNRECOGNIZED_MARKERS with
    | some marker =>
      let reported := extract_reported_options output
      if reported.any (fun r => option_matches r option) then
        (.refuted, none)
      else if reported.isEmpty then
        (.undetermined,
          some ("unrecognized option marker (".data ++ marker
            ++ ") without option attribution".data))
      else
        (.undetermined,
          some ("unrecognized option marker (".data ++ marker
            ++ ") for ".data ++ rustDebugList reported))
    | none =>
      match find_marker output_lower AMBIGUOUS_MARKERS with
      | some marker =>
        (.undetermined, some ("ambiguous option response (".data ++ marker ++ [')']))
      | none =>
        let notes :=
          (if exit_code ≠ 0 then
            [("nonzero exit (".data ++ rustDisplayInt exit_code
              ++ ") without unrecognized option marker".data)]
          else [])
          ++ (if contains_any output_lower ARGUMENT_ERROR_MARKERS then
                ["argument error reported".data]
              else [])
        (.confirmed, if notes.isEmpty then none else some (joinSep "; ".data notes))

/-- `ProbeType` of schema.rs. -/
inductive ProbeType
  | existence
  | invalidValue
  | optionAtEnd
deriving DecidableEq, Repr

/-- `ProbeBudget` of schema.rs. -/
structure ProbeBudget where
  max_total : Nat
  max_per_option : Nat
deriving DecidableEq, Repr

/-- `StopRules` of schema.rs. -/
structure StopRules where
  stop_on_unrecognized : Bool
  stop_on_binding_confirmed : Bool
deriving DecidableEq, Repr

/-- `PlannedOption` of schema.rs. -/
structure PlannedOption where
  option : String
  probes : List ProbeType
deriving DecidableEq, Repr

/-- `ProbePlan` of schema.rs. -/
structure ProbePlan where
  planner_version : String
  options : List PlannedOption
  budget : ProbeBudget
  stop_rules : StopRules
deriving Repr

/-- `CaptureOutput` of schema.rs. -/
structure CaptureOutput where
  args : List String
  exit_code : Option Int
  stdout : String
  stderr : String
deriving Repr

/-- `SelfReport` of schema.rs. -/
structure SelfReport where
  help : CaptureOutput
  version : CaptureOutput
  usage_error : CaptureOutput
deriving Repr

/-- `ProbeDefinition` of planner.rs. -/
structure ProbeDefinition where
  probe : ProbeType
  description : String

/-- `ProbeLibrary` of planner.rs. -/
structure ProbeLibrary where
  version : String
  probes : List ProbeDefinition

/-- `PlannerRequest` of planner.rs. -/
structure PlannerRequest where
  self_report : SelfReport
  options : List String
  probe_library : ProbeLibrary
  budget : ProbeBudget
  stop_rules : StopRules

/-- The per-option checks of `validate_plan`'s loop, in source order. -/
def checkPlannedOption (allowed : List String) (maxPer : Nat) (seen : List String)
    (p : PlannedOption) : Option String :=
  if ¬ allowed.contains p.option then
    some ("planner returned unknown option: " ++ p.option)
  else if seen.contains p.option then
    some ("planner returned duplicate option: " ++ p.option)
  else if p.probes.isEmpty then
    some ("planner returned empty probe list for " ++ p.option)
  else if p.probes.head? ≠ some ProbeType.existence then
    some ("planner must start probes with existence for " ++ p.option)
  else if p.probes.length > maxPer then
    some ("planner exceeded per-option probe budget for " ++ p.option)
  else none

/-- The loop of `validate_plan`: the `seen` set (as the list of inserted
options) and the running probe total. -/
def validatePlanLoop (allowed : List String) (maxPer : Nat) :
    List PlannedOption → List String → Nat → Except String (List String × Nat)
  | [], seen, total => .ok (seen, total)
  | p :: rest, seen, total =>
    match checkPlannedOption allowed maxPer seen p with
    | some e => .error e
    | none => validatePlanLoop allowed maxPer rest (p.option :: seen) (total + p.probes.length)

/-- `validate_plan` of planner.rs.  `allowed` is the `BTreeSet` over the
request's options: membership is list membership and its size is the
deduplicated length.  (The error message's missing-list is rendered in
first-seen rather than the set's lexicographic order; the message text is
not otherwise load-bearing.) -/
def validate_plan (plan : ProbePlan) (request : PlannerRequest) : Except String Unit :=
  if plan.budget.max_total ≠ request.budget.max_total
      ∨ plan.budget.max_per_option ≠ request.budget.max_per_option then
    .error "planner budget does not match requested budget"
  else if plan.stop_rules.stop_on_unrecognized ≠ request.stop_rules.stop_on_unrecognized
      ∨ plan.stop_rules.stop_on_binding_confirmed
          ≠ request.stop_rules.stop_on_binding_confirmed then
    .error "planner stop rules do not match requested stop rules"
  else
    match validatePlanLoop request.options plan.budget.max_per_option plan.options [] 0 with
    | .error e => .error e
    | .ok (seen, total) =>
      if total > plan.budget.max_total then
        .error "planner exceeded total probe budget"
      else if seen.length ≠ request.options.dedup.length then
        .error ("planner did not cover all options; missing "
          ++ String.mk (rustDebugList
              ((request.options.dedup.filter (fun o => ¬ seen.contains o)).map String.data)))
      else
        .ok ()

/-- `AttemptAnalysis` of the surface-extractor variant, as §3 of the spec
lists its fields (the variant's source is absent from src/; src/validate.rs
holds the superseded legacy copy without `help_like`/`argument_error`). -/
structure AttemptAnalysis where
  unrecognized : Bool
  missing_arg : Bool
  arg_not_allowed : Bool
  invalid_arg : Bool
  ambiguous : Bool
  help_like : Bool
  argument_error : Bool
  exit_code : Option Int
  notes : List (List Char)
deriving Repr

/-- Modelled from the spec: the surface-extractor variant's attribution
relation (§4.5), absent from src/ — "exact equal after lower-casing; match
modulo a trailing `=VALUE`; or single-letter match against a two-character
`-X` tested option". -/
def option_matches_surface (reported tested : List Char) : Bool :=
  let r := lowerStr reported
  let t := lowerStr tested
  r == t
    || (t ++ ['=']).isPrefixOf r
    || (match r, t with
        | [c], [d1, d2] => d1 == '-' && c == d2
        | _, _ => false)

/-- The note recorded by the missing-argument fallback (§4.5). -/
def missingFallbackNote : List Char :=
  "missing argument marker without option attribution; attributed to tested option".data

/-- Modelled from the spec: the surface-extractor variant's per-probe
signal extraction (§4.5), absent from src/.  Marker families use the
source's extraction helpers; each signal is option-attributed through
`option_matches_surface`, with the two carved-out fallbacks: an
unattributable missing-argument marker is attributed to the tested option
(with a note), and the whitelisted binary-specific invalid-argument idioms
attribute to their named options. -/
def analyze_attempt (option : List Char) (exit_code : Option Int)
    (stdout stderr : List Char) : AttemptAnalysis :=
  let output := stdout ++ stderr
  let lower := lowerStr output
  let unrecReported := extract_reported_options output
  let unrecognized :=
    contains_any lower UNRECOGNIZED_MARKERS
      && unrecReported.any (fun r => option_matches_surface r option)
  let missingReported := extract_missing_argument_options output
  let missingAttributed := missingReported.any (fun r => option_matches_surface r option)
  let missingMarker := contains_any lower MISSING_ARGUMENT_MARKERS
  let missingFallback := missingMarker && missingReported.isEmpty
  let missing_arg := missingAttributed || missingFallback
  let notAllowedReported := extract_argument_not_allowed_options output
  let arg_not_allowed := notAllowedReported.any (fun r => option_matches_surface r option)
  let invalidReported := extract_invalid_argument_options output
  let invalid_arg :=
    invalidReported.any (fun r => option_matches_surface r option)
      || (containsSub lower "invalid tab size".data && option == "--tabsize".data)
      || (containsSub lower "invalid line width".data && option == "--width".data)
  let ambiguous := contains_any lower AMBIGUOUS_MARKERS
  let notes :=
    (if missingFallback then [missingFallbackNote] else [])
      ++ (if contains_any lower UNRECOGNIZED_MARKERS && !unrecognized then
            ["unrecognized option marker without attribution to tested option".data]
          else [])
      ++ (if ¬ missingReported.isEmpty ∧ !missingAttributed then
            ["missing argument marker for ".data ++ rustDebugList missingReported]
          else [])
      ++ (if ¬ notAllowedReported.isEmpty ∧ !arg_not_allowed then
            ["argument not allowed marker for ".data ++ rustDebugList notAllowedReported]
          else [])
      ++ (if ambiguous then ["ambiguous option response".data] else [])
  { unrecognized := unrecognized
    missing_arg := missing_arg
    arg_not_allowed := arg_not_allowed
    invalid_arg := invalid_arg
    ambiguous := ambiguous
    help_like := containsSub lower "usage:".data
    argument_error := contains_any lower ARGUMENT_ERROR_MARKERS
    exit_code := exit_code
    notes := notes }

/-- `ValueForm` of help.rs. -/
inductive ValueForm
  | attached
  | trailing
deriving DecidableEq, Repr

/-- Modelled from the spec: `infer_binding` of the surface-extractor
variant — the inference engine's decision order, §4.6 rules 2–10 (rule 1,
existence not confirmed, lives with the caller in `execute_plan`).
`src/main.rs` imports this function but its source file is absent from
src/.  Output is (status, kind, reason). -/
def infer_binding (missing invalid : AttemptAnalysis)
    (endProbe : Option AttemptAnalysis) (hint : Option ValueForm) :
    ValidationStatus × Option BindingKind × Option (List Char) :=
  if missing.unrecognized || invalid.unrecognized then
    (.undetermined, none, some "unrecognized option response".data)
  else if missing.ambiguous || invalid.ambiguous then
    (.undetermined, none, some "ambiguous option response".data)
  else if missing.missing_arg then
    (.confirmed, some .required, some "missing argument response observed".data)
  else if missing.invalid_arg then
    (.confirmed, some .required,
      some "invalid argument response observed for missing probe".data)
  else if invalid.arg_not_allowed then
    (.confirmed, some .noValue, some "argument not allowed response observed".data)
  else if invalid.invalid_arg then
    if !missing.help_like && invalid.help_like then
      (.confirmed, some .required,
        some "missing probe likely consumed --help; invalid argument observed".data)
    else
      (.confirmed, some .optionalValue, some "invalid argument response observed".data)
  else if missing.exit_code == some 0 && invalid.exit_code == some 0
      && !missing.argument_error && !invalid.argument_error then
    match hint with
    | some .attached =>
      (.confirmed, some .optionalValue,
        some "no argument errors detected with attached value".data)
    | _ => (.undetermined, none, some "no argument errors detected with trailing value".data)
  else
    match endProbe with
    | some e =>
      if e.missing_arg && e.exit_code != some 0 then
        (.confirmed, some .required,
          some "missing argument response observed (option at end probe)".data)
      else (.undetermined, none, some "insufficient binding evidence".data)
    | none => (.undetermined, none, some "insufficient binding evidence".data)

/-- `ArgSource` of help.rs. -/
inductive ArgSource
  | attached
  | trailing
deriving DecidableEq, Repr

/-- `From<ArgSource> for ValueForm` of help.rs. -/
def ArgSource.toForm : ArgSource → ValueForm
  | .attached => .attached
  | .trailing => .trailing

/-- `BindingHint` of help.rs. -/
structure BindingHint where
  optional : Bool
  form : ValueForm
deriving DecidableEq, Repr

/-- `HelpOption` of help.rs (the token kept as a `String`). -/
structure HelpOption where
  option : String
  binding : Option BindingHint
deriving DecidableEq, Repr

/-- `ArgToken` of help.rs. -/
structure ArgToken where
  optional : Bool
  source : ArgSource
deriving DecidableEq, Repr

/-- `SpecToken` of help.rs. -/
inductive SpecToken
  | optionTok (raw : List Char)
  | argTok (a : ArgToken)
  | separator
deriving DecidableEq, Repr

/-- `ArgSpec` of help.rs. -/
inductive ArgSpec
  | requiredArg (source : ArgSource)
  | optionalArg (source : ArgSource)
deriving DecidableEq, Repr

/-- `ArgSpec::source`. -/
def ArgSpec.source : ArgSpec → ArgSource
  | .requiredArg s => s
  | .optionalArg s => s

/-- `ArgSpec::from_token`. -/
def ArgSpec.from_token (a : ArgToken) : ArgSpec :=
  if a.optional then .optionalArg a.source else .requiredArg a.source

/-- `prefer_arg_spec` of help.rs: attached wins over trailing, otherwise
the first seen wins. -/
def prefer_arg_spec (existing candidate : ArgSpec) : ArgSpec :=
  if existing.source = ArgSource.trailing ∧ candidate.source = ArgSource.attached then
    candidate
  else existing

/-- `OptionSpec` of help.rs. -/
structure OptionSpec where
  options : List (List Char)
  arg : Option ArgSpec
deriving Repr

/-- Index of the first occurrence of `pat` as a contiguous subsequence
(models `str::find` for string needles; char positions stand for byte
positions, which agree on ASCII). -/
def findSubIdx (pat : List Char) : List Char → Option Nat
  | [] => if pat.isEmpty then some 0 else none
  | l@(_ :: rest) =>
    if pat.isPrefixOf l then some 0 else (findSubIdx pat rest).map (· + 1)

/-- `split_attached_arg_form` of help.rs, `=` branch. -/
def splitEqForm (token : List Char) : Option (List Char × Option ArgToken) :=
  match findSubIdx ['='] token with
  | some idx =>
    let optPart := token.take idx
    let arg := token.drop (idx + 1)
    if arg.isEmpty then none
    else some (optPart, some ⟨false, ArgSource.attached⟩)
  | none => some (token, none)

/-- `split_attached_arg_form` of help.rs. -/
def split_attached_arg_form (token : List Char) : Option (List Char × Option ArgToken) :=
  match findSubIdx ['[', '='] token with
  | some idx =>
    if token.getLast? = some ']' then
      let arg := (token.drop (idx + 2)).dropLast
      if arg.isEmpty then none
      else some (token.take idx, some ⟨true, ArgSource.attached⟩)
    else splitEqForm token
  | none => splitEqForm token

/-- `parse_long_option_segment` of help.rs. -/
def parse_long_option_segment (segment : List Char) :
    Option (List Char × Option ArgToken) :=
  if ¬ ['-', '-'].isPrefixOf segment then none
  else if segment.length ≤ 2 then none
  else
    match split_attached_arg_form segment with
    | none => none
    | some (optPart, argForm) =>
      match optPart.drop 2 with
      | [] => none
      | first :: rest =>
        if ¬ first.isAlphanum then none
        else if ¬ rest.all (fun c => c.isAlphanum || c = '-') then none
        else some (optPart, argForm)

/-- `parse_short_option_segment` of help.rs. -/
def parse_short_option_segment (segment : List Char) :
    Option (List Char × Option ArgToken) :=
  if ¬ segment.head? = some '-' ∨ ['-', '-'].isPrefixOf segment then none
  else if segment.length < 2 then none
  else
    match split_attached_arg_form segment with
    | none => none
    | some (optPart, argForm) =>
      match optPart.drop 1 with
      | [c] => if c.isAlphanum then some (optPart, argForm) else none
      | _ => none

/-- `parse_option_segment` of help.rs. -/
def parse_option_segment (segment : List Char) : Option (List Char × Option ArgToken) :=
  match parse_long_option_segment segment with
  | some parsed => some parsed
  | none => parse_short_option_segment segment

/-- `strip_prefix`/`strip_suffix` pair used by `classify_arg_token`. -/
def stripAround (o c : Char) (token : List Char) : Option (List Char) :=
  match token with
  | h :: rest =>
    if h = o then
      if rest.getLast? = some c then some rest.dropLast else none
    else none
  | [] => none

/-- `is_upper_placeholder` of help.rs. -/
def is_upper_placeholder (token : List Char) : Bool :=
  token.all (fun ch => ch.isUpper || ch.isDigit || ch = '-' || ch = '_')
    && token.any (fun ch => ch.isUpper)

/-- `classify_arg_token` of help.rs: `some true` = optional, `some false`
= required. -/
def classify_arg_token (token : List Char) : Option Bool :=
  if token.isEmpty then none
  else
    match stripAround '[' ']' token with
    | some inner => if inner.isEmpty then none else some true
    | none =>
      match stripAround '<' '>' token with
      | some inner => if inner.isEmpty then none else some false
      | none => if is_upper_placeholder token then some false else none

/-- `parse_trailing_arg_segment` of help.rs. -/
def parse_trailing_arg_segment (segment : List Char) : Option ArgToken :=
  (classify_arg_token segment).map (fun opt => ⟨opt, ArgSource.trailing⟩)

/-- `trim_token_punct` of help.rs (`trim_end_matches` of `, ; :`). -/
def trim_token_punct (token : List Char) : List Char :=
  (token.reverse.dropWhile (fun c => [',', ';', ':'].contains c)).reverse

/-- `looks_like_option_token` of help.rs. -/
def looks_like_option_token (token : List Char) : Bool :=
  (parse_option_segment (trim_token_punct token)).isSome

/-- `looks_like_arg_token` of help.rs. -/
def looks_like_arg_token (token : List Char) : Bool :=
  (classify_arg_token (trim_token_punct token)).isSome

/-- `looks_like_separator_token` of help.rs. -/
def looks_like_separator_token (token : List Char) : Bool :=
  token = [','] ∨ token = [';']

/-- `flush_spec_segment` of help.rs (returning the emitted tokens). -/
def flush_spec_segment (segment : List Char) : List SpecToken :=
  if segment.isEmpty then []
  else
    match parse_option_segment segment with
    | some (raw, argForm) =>
      SpecToken.optionTok raw ::
        (match argForm with
         | some a => [SpecToken.argTok a]
         | none => [])
    | none =>
      match parse_trailing_arg_segment segment with
      | some a => [SpecToken.argTok a]
      | none => []

/-- `tokenize_word` of help.rs: split on `,`/`;` into separators, on `:`
silently, flushing the accumulated segment at each boundary. -/
def tokenize_word : List Char → List Char → List SpecToken
  | [], seg => flush_spec_segment seg
  | c :: cs, seg =>
    if c = ',' ∨ c = ';' then
      flush_spec_segment seg ++ (SpecToken.separator :: tokenize_word cs [])
    else if c = ':' then
      flush_spec_segment seg ++ tokenize_word cs []
    else
      tokenize_word cs (seg ++ [c])

/-- `str::split_whitespace`. -/
def splitWSAux : List Char → List Char → List (List Char)
  | [], acc => if acc.isEmpty then [] else [acc.reverse]
  | c :: cs, acc =>
    if c.isWhitespace then
      if acc.isEmpty then splitWSAux cs [] else acc.reverse :: splitWSAux cs []
    else splitWSAux cs (c :: acc)

/-- `tokenize_spec` of help.rs. -/
def tokenize_spec (spec : List Char) : List SpecToken :=
  (splitWSAux spec []).flatMap (fun word => tokenize_word word [])

/-- `parse_option_spec` of help.rs. -/
def parse_option_spec (tokens : List SpecToken) : Option OptionSpec :=
  let st := tokens.foldl
    (fun (st : List (List Char) × Option ArgSpec) tk =>
      match tk with
      | .optionTok raw => (st.1 ++ [raw], st.2)
      | .argTok a =>
        (st.1,
          match st.2 with
          | none => some (ArgSpec.from_token a)
          | some existing => some (prefer_arg_spec existing (ArgSpec.from_token a)))
      | .separator => st)
    ([], none)
  if st.1.isEmpty then none else some ⟨st.1, st.2⟩

/-- `str::lines` (split at `\n`, dropping a final line terminator and a
trailing `\r` per line). -/
def splitLinesAux : List Char → List Char → List (List Char)
  | [], acc => [acc.reverse]
  | c :: cs, acc =>
    if c = '\n' then acc.reverse :: splitLinesAux cs []
    else splitLinesAux cs (c :: acc)

/-- Strip one trailing carriage return. -/
def stripCR (l : List Char) : List Char :=
  if l.getLast? = some '\r' then l.dropLast else l

/-- The lines of a document, as `str::lines` yields them. -/
def strLines (content : List Char) : List (List Char) :=
  if content.isEmpty then []
  else
    let parts := splitLinesAux content []
    (if parts.getLast? = some [] ∧ content.getLast? = some '\n' then
      parts.dropLast
    else parts).map stripCR

/-- Characters `is_whitespace` (help.rs) accepts: space and tab. -/
def isWSByte (c : Char) : Bool := c = ' ' || c = '\t'

/-- Leading trim (`str::trim_start`). -/
def trimStart (l : List Char) : List Char := l.dropWhile (fun c => c.isWhitespace)

/-- Trailing trim (`str::trim_end`). -/
def trimEnd (l : List Char) : List Char :=
  (l.reverse.dropWhile (fun c => c.isWhitespace)).reverse

/-- Both-ends trim (`str::trim`). -/
def trimStr (l : List Char) : List Char := trimEnd (trimStart l)

/-- `looks_like_option_table` of help.rs. -/
def looks_like_option_table (line : List Char) : Bool :=
  let t := trimStart line
  t.head? = some '-' ∧ ¬ ['-', '-', '-'].isPrefixOf t

/-- `split_on_double_space_index` of help.rs. -/
def split_on_double_space_index : List Char → Option Nat
  | c1 :: c2 :: rest =>
    if isWSByte c1 ∧ isWSByte c2 then some 0
    else (split_on_double_space_index (c2 :: rest)).map (· + 1)
  | _ => none

/-- `token_spans` of help.rs: each token with its start index. -/
def tokenSpansAux : List Char → Nat → Nat → List Char → List (Nat × List Char)
  | [], _, start, acc => if acc.isEmpty then [] else [(start, acc.reverse)]
  | c :: cs, i, start, acc =>
    if isWSByte c then
      if acc.isEmpty then tokenSpansAux cs (i + 1) 0 []
      else (start, acc.reverse) :: tokenSpansAux cs (i + 1) 0 []
    else
      if acc.isEmpty then tokenSpansAux cs (i + 1) i [c]
      else tokenSpansAux cs (i + 1) start (c :: acc)

/-- The scan of `split_on_single_space_fallback`: (saw_option,
spec_tokens, non_spec_tokens, split_at). -/
def singleSpaceScan :
    List (Nat × List Char) → Bool → Nat → Nat → Option Nat →
    Bool × Nat × Nat × Option Nat
  | [], saw, sp, nsp, at_ => (saw, sp, nsp, at_)
  | (start, tok) :: rest, saw, sp, nsp, at_ =>
    let isOpt := looks_like_option_token tok
    let saw := saw || isOpt
    let isSpec := isOpt || looks_like_arg_token tok || looks_like_separator_token tok
    if isSpec then singleSpaceScan rest saw (sp + 1) nsp at_
    else
      singleSpaceScan rest saw sp (nsp + 1)
        (if saw ∧ at_.isNone then some start else at_)

/-- `split_on_single_space_fallback` of help.rs. -/
def split_on_single_space_fallback (line : List Char) : Option Nat :=
  if line.length > 72 then none
  else
    let r := singleSpaceScan (tokenSpansAux line 0 0 []) false 0 0 none
    if ¬ r.1 then none
    else
      match r.2.2.2 with
      | none => none
      | some idx => if r.2.1 ≥ r.2.2.1 then some idx else none

/-- `option_spec_segment` of help.rs. -/
def option_spec_segment (line : List Char) : List Char :=
  let trimmed := trimStr line
  match split_on_double_space_index trimmed with
  | some idx => trimEnd (trimmed.take idx)
  | none =>
    match split_on_single_space_fallback trimmed with
    | some idx => trimEnd (trimmed.take idx)
    | none => trimmed

/-- `detect_option_rows` of help.rs (specialised to the
`looks_like_option_table` selector used by `extract_help_options`). -/
def detect_option_rows (content : List Char) : List (List Char) :=
  (strLines content).filterMap (fun line =>
    if looks_like_option_table line then
      let spec := option_spec_segment line
      if spec.isEmpty then none else some spec
    else none)

/-- The binding hint a row's `ArgSpec` yields. -/
def bindingOfArg : ArgSpec → BindingHint
  | .requiredArg s => ⟨false, s.toForm⟩
  | .optionalArg s => ⟨true, s.toForm⟩

/-- `merge_binding_hint` of help.rs. -/
def merge_binding_hint : Option BindingHint → Option BindingHint → Option BindingHint
  | none, other => other
  | some current, none => some current
  | some current, some next =>
    if current.form = ValueForm.trailing ∧ next.form = ValueForm.attached then some next
    else some current

/-- The merge step of `extract_help_options`: the source keeps an index
map from token to position and updates the record in place, appending
unseen tokens; positions never change, so updating the first (unique)
matching record is the same operation. -/
def insertHelpOption : List HelpOption → String → Option BindingHint → List HelpOption
  | [], o, b => [⟨o, b⟩]
  | e :: rest, o, b =>
    if e.option = o then ⟨e.option, merge_binding_hint e.binding b⟩ :: rest
    else e :: insertHelpOption rest o b

/-- `extract_help_options` of help.rs. -/
def extract_help_options (content : List Char) : List HelpOption :=
  (detect_option_rows content).foldl
    (fun acc spec_segment =>
      match parse_option_spec (tokenize_spec spec_segment) with
      | none => acc
      | some spec =>
        if spec.options.isEmpty then acc
        else
          let binding := spec.arg.map bindingOfArg
          spec.options.foldl
            (fun acc raw => insertHelpOption acc (String.mk raw) binding) acc)
    []

/-- `Evidence` of schema.rs. -/
structure Evidence where
  args : List String
  env : List (String × String)
  exit_code : Option Int
  stdout : Option String
  stderr : Option String
  notes : Option String
deriving DecidableEq, Repr

/-- `ProbeRun` of the surface-extractor validate.rs: the analysis and the
evidence record a probe execution yields. -/
structure ProbeRun where
  analysis : AttemptAnalysis
  evidence : Evidence
deriving Repr

/-- `TierResult` of schema.rs. -/
structure TierResult where
  status : ValidationStatus
  reason : Option (List Char)
  evidence : List Evidence
deriving Repr

/-- `BindingResult` of schema.rs. -/
structure BindingResult where
  status : ValidationStatus
  kind : Option BindingKind
  reason : Option (List Char)
  evidence : List Evidence
deriving Repr

/-- `OptionSurface` of schema.rs. -/
structure OptionSurface where
  option : String
  existence : TierResult
  binding : BindingResult
deriving Repr

/-- The probe executions `execute_plan` performs, abstracted as pure
outcome functions (the binary, environment and working directory are fixed
for a run): `run_existence_probe`, `run_invalid_value_probe` and
`run_option_at_end_probe` of the surface-extractor validate.rs. -/
structure ProbeOracle where
  existence : String → ValidationStatus × Option (List Char) × ProbeRun
  invalidValue : String → Option ValueForm → ProbeRun
  optionAtEnd : String → ProbeRun

/-- The `hint_map` lookup of `execute_plan`: the map is built by
insertion, so a repeated token keeps its last entry; `get(...).flatten()`. -/
def bindingHintFor (helpOptions : List HelpOption) (option : String) :
    Option BindingHint :=
  ((helpOptions.reverse.find? (fun h => h.option == option)).map
    (fun h => h.binding)).join

/-- The per-option probe loop of `execute_plan` (main.rs), including both
stop rules. -/
def runProbesLoop (oracle : ProbeOracle) (stop : StopRules) (option : String)
    (formHint : Option ValueForm) :
    List ProbeType →
    Option (ValidationStatus × Option (List Char) × ProbeRun) →
    Option ProbeRun → Option ProbeRun →
    Option (ValidationStatus × Option (List Char) × ProbeRun)
      × Option ProbeRun × Option ProbeRun
  | [], e, i, o => (e, i, o)
  | probe :: rest, e0, i0, o0 =>
    let s :=
      match probe with
      | .existence => (some (oracle.existence option), i0, o0)
      | .invalidValue => (e0, some (oracle.invalidValue option formHint), o0)
      | .optionAtEnd => (e0, i0, some (oracle.optionAtEnd option))
    let e := s.1
    let i := s.2.1
    let o := s.2.2
    if stop.stop_on_unrecognized
        && (match e with
            | some (st, _, _) => st == ValidationStatus.refuted
            | none => false) then
      (e, i, o)
    else if stop.stop_on_binding_confirmed
        && (match e, i with
            | some (st, _, erun), some irun =>
              st == ValidationStatus.confirmed
                && (let r := infer_binding erun.analysis irun.analysis
                      (o.map (fun run => run.analysis)) formHint
                    r.1 == ValidationStatus.confirmed && r.2.1.isSome)
            | _, _ => false) then
      (e, i, o)
    else
      runProbesLoop oracle stop option formHint rest e i o

/-- The per-option assembly of `execute_plan` (main.rs lines 194–309):
run the planned probes, then build the existence `TierResult` and the
binding `BindingResult`. -/
def surfaceForOption (oracle : ProbeOracle) (stop : StopRules)
    (helpOptions : List HelpOption) (planned : PlannedOption) : OptionSurface :=
  let option := planned.option
  let binding_hint := bindingHintFor helpOptions option
  let form_hint := binding_hint.map (fun h => h.form)
  let r := runProbesLoop oracle stop option form_hint planned.probes none none none
  let existence := r.1
  let invalid_value := r.2.1
  let option_at_end := r.2.2
  let exist_status :=
    match existence with
    | some (st, _, _) => st
    | none => ValidationStatus.undetermined
  let exist_reason :=
    match existence with
    | some (_, reason, _) => reason
    | none => some "existence probe not run".data
  let exist_evidence :=
    match existence with
    | some (_, _, run) => [run.evidence]
    | none => []
  let exist_analysis := existence.map (fun x => x.2.2.analysis)
  let binding_evidence :=
    (match existence with
     | some (_, _, run) => [run.evidence]
     | none => [])
    ++ (match invalid_value with
        | some run => [run.evidence]
        | none => [])
    ++ (match option_at_end with
        | some run => [run.evidence]
        | none => [])
  let bres :=
    if exist_status ≠ ValidationStatus.confirmed then
      (ValidationStatus.undetermined, none, some "option existence not confirmed".data)
    else
      match exist_analysis, invalid_value with
      | some missing, some invalid =>
        infer_binding missing invalid.analysis
          (option_at_end.map (fun run => run.analysis)) form_hint
      | _, _ =>
        (ValidationStatus.undetermined, none, some "invalid-value probe not run".data)
  { option := option
    existence := ⟨exist_status, exist_reason, exist_evidence⟩
    binding := ⟨bres.1, bres.2.1, bres.2.2, binding_evidence⟩ }

/-- `execute_plan` of main.rs, over the probe-outcome oracle. -/
def executePlan (oracle : ProbeOracle) (plan : ProbePlan)
    (helpOptions : List HelpOption) : List OptionSurface :=
  plan.options.map (surfaceForOption oracle plan.stop_rules helpOptions)

/-- `USAGE_ERROR_ARG` of main.rs. -/
def USAGE_ERROR_ARG : String := "--__bvm_unknown__"

/-- `select_help_text` of main.rs. -/
def select_help_text (capture : CaptureOutput) : Option String :=
  if ¬ capture.stdout.trim = "" then some capture.stdout
  else if ¬ capture.stderr.trim = "" then some capture.stderr
  else none

/-- `capture_help` of main.rs, over a capture oracle standing for
`capture_output` on the fixed binary and environment. -/
def capture_help (cap : List String → Except String CaptureOutput) :
    Except String CaptureOutput := do
  let primary ← cap ["--help"]
  if (select_help_text primary).isSome then return primary
  let fallback ← cap ["-h"]
  if (select_help_text fallback).isSome then return fallback
  return primary

/-- `capture_self_report` of main.rs. -/
def capture_self_report (cap : List String → Except String CaptureOutput) :
    Except String SelfReport := do
  let help ← capture_help cap
  let version ← cap ["--version"]
  let usage_error ← cap [USAGE_ERROR_ARG]
  return ⟨help, version, usage_error⟩

/-- Rust `{:?}` of an `Option<i32>`. -/
def rustDebugOptInt : Option Int → String
  | none => "None"
  | some i => "Some(" ++ toString i ++ ")"

/-- The help-selection head of `cmd_surface` (main.rs lines 75–81): the
self-report and the selected help text, or the fatal no-help error. -/
def surfaceHelpText (cap : List String → Except String CaptureOutput) :
    Except String (SelfReport × String) := do
  let sr ← capture_self_report cap
  match select_help_text sr.help with
  | some t => return (sr, t)
  | none =>
    .error ("--help capture produced no output: exit="
      ++ rustDebugOptInt sr.help.exit_code)

/-- An analysis with every signal clear (witness material). -/
def quietAnalysis : AttemptAnalysis :=
  ⟨false, false, false, false, false, false, false, some 0, []⟩

/-- An analysis with only `unrecognized` set (witness material). -/
def unrecAnalysis : AttemptAnalysis :=
  ⟨true, false, false, false, false, false, false, some 2, []⟩

/-- An analysis with only `arg_not_allowed` set (witness material). -/
def notAllowedAnalysis : AttemptAnalysis :=
  ⟨false, false, true, false, false, false, true, some 2, []⟩

/-- A placeholder evidence record (witness material). -/
def stubEvidence : Evidence := ⟨[], [], some 2, none, none, none⟩

/-- An oracle whose existence probe always refutes (witness material). -/
def refutingOracle : ProbeOracle :=
  ⟨fun _ => (.refuted, none, ⟨unrecAnalysis, stubEvidence⟩),
   fun _ _ => ⟨quietAnalysis, stubEvidence⟩,
   fun _ => ⟨quietAnalysis, stubEvidence⟩⟩

/-- A one-option plan (witness material). -/
def onePlan : ProbePlan :=
  ⟨"stub", [⟨"--nope", [ProbeType.existence]⟩], ⟨3, 3⟩, ⟨true, true⟩⟩

/-- The (token, hint) occurrences a help document contributes, in reading
order: the same row/option pairs `extract_help_options` feeds its merge
loop. -/
def helpOccurrences (content : List Char) : List (String × Option BindingHint) :=
  (detect_option_rows content).flatMap (fun spec_segment =>
    match parse_option_spec (tokenize_spec spec_segment) with
    | none => []
    | some spec =>
      if spec.options.isEmpty then []
      else spec.options.map (fun raw => (String.mk raw, spec.arg.map bindingOfArg)))

/-- A token sequence in first-observed order, given the already-seen
tokens. -/
def firstObserved : List String → List String → List String
  | _, [] => []
  | seen, t :: ts =>
    if t ∈ seen then firstObserved seen ts
    else t :: firstObserved (t :: seen) ts

/-- The hints recorded for one token across a document, in order. -/
def hintsFor (t : String) (occ : List (String × Option BindingHint)) :
    List (Option BindingHint) :=
  (occ.filter (fun p => p.1 == t)).map Prod.snd

/-- The long-option name grammar of the claim: one alphanumeric then only
alphanumerics or `-` (exactly the checks of `parse_long_option_segment`). -/
def longNameOk (name : List Char) : Bool :=
  match name with
  | [] => false
  | first :: rest => first.isAlphanum && rest.all (fun c => c.isAlphanum || c = '-')

/-- The token contains the two-character sequence `[=`. -/
def hasBracketEq (s : List Char) : Prop :=
  ∃ u v, s = u ++ '[' :: '=' :: v

/-- The claim's long-option grammar exactly as stated (an attached `=ARG`
or `[=ARG]` form with any non-empty ARG, no precedence between the two):
the reading refuted by the code. -/
def originalLongGrammar (s : List Char) : Prop :=
  ∃ name, longNameOk name = true ∧
    (s = '-' :: '-' :: name
      ∨ (∃ arg, arg ≠ [] ∧ s = '-' :: '-' :: name ++ '=' :: arg)
      ∨ (∃ arg, arg ≠ [] ∧ s = '-' :: '-' :: name ++ '[' :: '=' :: arg ++ [']']))

/-!  ## Theorems  -/

/-- C1: whenever either probe analysis handed to the binding inference has
`unrecognized` set, the verdict is Undetermined with reason "unrecognized
option response" — in particular it is not Refuted. -/
theorem C1_unrecognized_binding_undetermined
    (missing invalid : AttemptAnalysis) (endProbe : Option AttemptAnalysis)
    (hint : Option ValueForm)
    (h : missing.unrecognized = true ∨ invalid.unrecognized = true) :
    infer_binding missing invalid endProbe hint
        = (.undetermined, none, some "unrecognized option response".data)
      ∧ (infer_binding missing invalid endProbe hint).1 ≠ .refuted := by
  have hb : (missing.unrecognized || invalid.unrecognized) = true := by
    rcases h with h | h <;> simp [h]
  refine ⟨?_, ?_⟩ <;> simp [infer_binding, hb]

/-- C1 witness: a concrete unrecognized missing-probe analysis. -/
theorem C1_unrecognized_binding_undetermined_witness :
    infer_binding unrecAnalysis quietAnalysis none none
        = (.undetermined, none, some "unrecognized option response".data)
      ∧ (infer_binding unrecAnalysis quietAnalysis none none).1 ≠ .refuted :=
  C1_unrecognized_binding_undetermined unrecAnalysis quietAnalysis none none
    (Or.inl rfl)

/-- C2: when no earlier inference rule applies (no unrecognized or
ambiguous signal on either probe, and the missing-arg probe shows neither
`missing_arg` nor `invalid_arg`), an `arg_not_allowed` signal on the
invalid-value probe yields Confirmed with kind NoValue and reason
"argument not allowed response observed". -/
theorem C2_arg_not_allowed_confirmed_no_value
    (missing invalid : AttemptAnalysis) (endProbe : Option AttemptAnalysis)
    (hint : Option ValueForm)
    (h1 : missing.unrecognized = false) (h2 : invalid.unrecognized = false)
    (h3 : missing.ambiguous = false) (h4 : invalid.ambiguous = false)
    (h5 : missing.missing_arg = false) (h6 : missing.invalid_arg = false)
    (h7 : invalid.arg_not_allowed = true) :
    infer_binding missing invalid endProbe hint
      = (.confirmed, some .noValue, some "argument not allowed response observed".data) := by
  simp [infer_binding, h1, h2, h3, h4, h5, h6, h7]

/-- C2 witness: a quiet missing probe paired with an argument-not-allowed
invalid probe. -/
theorem C2_arg_not_allowed_confirmed_no_value_witness :
    infer_binding quietAnalysis notAllowedAnalysis none none
      = (.confirmed, some .noValue, some "argument not allowed response observed".data) :=
  C2_arg_not_allowed_confirmed_no_value quietAnalysis notAllowedAnalysis none none
    rfl rfl rfl rfl rfl rfl rfl

/-- C5: an output that contains a missing-argument marker but yields no
extracted option token makes the analysis attribute the marker to the
tested option — `missing_arg` is set and the fallback note is recorded. -/
theorem C5_missing_arg_fallback
    (option : List Char) (exit_code : Option Int) (stdout stderr : List Char)
    (hmark : contains_any (lowerStr (stdout ++ stderr)) MISSING_ARGUMENT_MARKERS = true)
    (hempty : extract_missing_argument_options (stdout ++ stderr) = []) :
    (analyze_attempt option exit_code stdout stderr).missing_arg = true
      ∧ missingFallbackNote ∈ (analyze_attempt option exit_code stdout stderr).notes := by
  refine ⟨?_, ?_⟩ <;> simp [analyze_attempt, hmark, hempty]

/-- C5 witness: `error: missing argument` carries the marker but no
extractable option token. -/
theorem C5_missing_arg_fallback_witness :
    contains_any (lowerStr (([] : List Char) ++ "error: missing argument".data))
        MISSING_ARGUMENT_MARKERS = true
      ∧ extract_missing_argument_options (([] : List Char) ++ "error: missing argument".data) = []
      ∧ ((analyze_attempt "--size".data (some 2) [] "error: missing argument".data).missing_arg = true
          ∧ missingFallbackNote
              ∈ (analyze_attempt "--size".data (some 2) [] "error: missing argument".data).notes) :=
  ⟨by decide, by decide,
   C5_missing_arg_fallback "--size".data (some 2) [] "error: missing argument".data
     (by decide) (by decide)⟩

/-- C6: the attribution relation holds exactly when the tokens are equal
after lower-casing, or equal after stripping a trailing `=VALUE` from the
reported token, or the reported token is the single letter of a
two-character `-X` tested option; and (outside the listed fallbacks) a
marker signal becomes true only when some extracted token matches the
tested option under this relation. -/
theorem singleLetterAux (r t : List Char) :
    (match r, t with
     | [c], [d1, d2] => d1 == '-' && c == d2
     | _, _ => false) = true ↔ ∃ c, r = [c] ∧ t = ['-', c] := by
  rcases r with _ | ⟨c, _ | ⟨c2, cs⟩⟩ <;>
    rcases t with _ | ⟨d1, _ | ⟨d2, _ | ds⟩⟩ <;>
      (simp; try aesop)

/-- The modelled attribution relation, characterised clause by clause. -/
theorem option_matches_surface_iff (reported tested : List Char) :
    option_matches_surface reported tested = true ↔
      (lowerStr reported = lowerStr tested
        ∨ (∃ val, lowerStr reported = lowerStr tested ++ '=' :: val)
        ∨ (∃ c, lowerStr reported = [c] ∧ lowerStr tested = ['-', c])) := by
  unfold option_matches_surface
  simp only [Bool.or_eq_true, beq_iff_eq, singleLetterAux]
  constructor
  · rintro ((h | h) | h)
    · exact Or.inl h
    · rcases List.isPrefixOf_iff_prefix.mp h with ⟨val, hval⟩
      exact Or.inr (Or.inl ⟨val, by simpa using hval.symm⟩)
    · exact Or.inr (Or.inr h)
  · rintro (h | ⟨val, hval⟩ | h)
    · exact Or.inl (Or.inl h)
    · refine Or.inl (Or.inr ?_)
      exact List.isPrefixOf_iff_prefix.mpr ⟨val, by simp [hval]⟩
    · exact Or.inr h

/-- C6: the attribution relation holds exactly when the tokens are equal
after lower-casing, or equal after stripping a trailing `=VALUE` from the
reported token, or the reported token is the single letter of a
two-character `-X` tested option; and (outside the listed fallbacks) a
marker signal becomes true only when some extracted token matches the
tested option under this relation. -/
theorem C6_attribution_relation :
    (∀ reported tested : List Char,
      option_matches_surface reported tested = true ↔
        (lowerStr reported = lowerStr tested
          ∨ (∃ val, lowerStr reported = lowerStr tested ++ '=' :: val)
          ∨ (∃ c, lowerStr reported = [c] ∧ lowerStr tested = ['-', c])))
  ∧ (∀ (option : List Char) (exit_code : Option Int) (stdout stderr : List Char),
      ((analyze_attempt option exit_code stdout stderr).arg_not_allowed = true →
        ∃ r ∈ extract_argument_not_allowed_options (stdout ++ stderr),
          option_matches_surface r option = true)
      ∧ ((analyze_attempt option exit_code stdout stderr).unrecognized = true →
        ∃ r ∈ extract_reported_options (stdout ++ stderr),
          option_matches_surface r option = true)) := by
  refine ⟨option_matches_surface_iff, ?_⟩
  intro option exit_code stdout stderr
  constructor
  · intro h
    have h2 : (extract_argument_not_allowed_options (stdout ++ stderr)).any
        (fun r => option_matches_surface r option) = true := by
      simpa [analyze_attempt] using h
    simpa using List.any_eq_true.mp h2
  · intro h
    have h2 : (extract_reported_options (stdout ++ stderr)).any
        (fun r => option_matches_surface r option) = true := by
      have h3 := h
      simp only [analyze_attempt, Bool.and_eq_true] at h3
      exact h3.2
    simpa using List.any_eq_true.mp h2

/-- C3: the per-probe existence classification — Undetermined with reason
"spawn failed: <msg>" on spawn failure; Undetermined with reason
"terminated without exit code" when the exit code is absent; Refuted when
an unrecognized-option marker is present and an extracted token matches
the tested option; Undetermined with a note when the marker is present but
attribution fails; Undetermined when an ambiguous marker is present; and
Confirmed otherwise, where a non-zero exit or a generic argument-error
marker only adds a note and never downgrades. -/
theorem C3_classify_attempt_cases (option : List Char) (attempt : ExecutionAttempt) :
    (∀ msg, attempt.spawn_error = some msg →
      classify_attempt option attempt
        = (.undetermined, some ("spawn failed: ".data ++ msg)))
  ∧ (attempt.spawn_error = none → attempt.exit_code = none →
      classify_attempt option attempt
        = (.undetermined, some "terminated without exit code".data))
  ∧ (∀ code marker, attempt.spawn_error = none → attempt.exit_code = some code →
      find_marker (lowerStr (attempt.stdout ++ attempt.stderr)) UNRECOGNIZED_MARKERS
        = some marker →
      ((extract_reported_options (attempt.stdout ++ attempt.stderr)).any
          (fun r => option_matches r option) = true →
        classify_attempt option attempt = (.refuted, none))
      ∧ ((extract_reported_options (attempt.stdout ++ attempt.stderr)).any
          (fun r => option_matches r option) = false →
        (classify_attempt option attempt).1 = .undetermined
          ∧ ((classify_attempt option attempt).2).isSome = true))
  ∧ (∀ code marker, attempt.spawn_error = none → attempt.exit_code = some code →
      find_marker (lowerStr (attempt.stdout ++ attempt.stderr)) UNRECOGNIZED_MARKERS = none →
      find_marker (lowerStr (attempt.stdout ++ attempt.stderr)) AMBIGUOUS_MARKERS
        = some marker →
      classify_attempt option attempt
        = (.undetermined, some ("ambiguous option response (".data ++ marker ++ [')'])))
  ∧ (∀ code, attempt.spawn_error = none → attempt.exit_code = some code →
      find_marker (lowerStr (attempt.stdout ++ attempt.stderr)) UNRECOGNIZED_MARKERS = none →
      find_marker (lowerStr (attempt.stdout ++ attempt.stderr)) AMBIGUOUS_MARKERS = none →
      (classify_attempt option attempt).1 = .confirmed
        ∧ ((code ≠ 0
              ∨ contains_any (lowerStr (attempt.stdout ++ attempt.stderr))
                  ARGUMENT_ERROR_MARKERS = true) →
            ((classify_attempt option attempt).2).isSome = true)) := by
  refine ⟨?_, ?_, ?_, ?_, ?_⟩
  · intro msg h
    simp [classify_attempt, h]
  · intro h1 h2
    simp [classify_attempt, h1, h2]
  · intro code marker h1 h2 hm
    constructor
    · intro hany
      simp [classify_attempt, h1, h2, hm, hany]
    · intro hany
      rcases he : (extract_reported_options (attempt.stdout ++ attempt.stderr)).isEmpty <;>
        refine ⟨?_, ?_⟩ <;> simp [classify_attempt, h1, h2, hm, hany, he]
  · intro code marker h1 h2 hu ha
    simp [classify_attempt, h1, h2, hu, ha]
  · intro code h1 h2 hu ha
    constructor
    · rcases Decidable.em (code = 0) with h0 | h0 <;>
        rcases hc : contains_any (lowerStr (attempt.stdout ++ attempt.stderr))
            ARGUMENT_ERROR_MARKERS <;>
          simp [classify_attempt, h1, h2, hu, ha, h0, hc]
    · rintro (h0 | hc)
      · rcases hc : contains_any (lowerStr (attempt.stdout ++ attempt.stderr))
            ARGUMENT_ERROR_MARKERS <;>
          simp [classify_attempt, h1, h2, hu, ha, h0, hc]
      · rcases Decidable.em (code = 0) with h0 | h0 <;>
          simp [classify_attempt, h1, h2, hu, ha, h0, hc]

/-- C9: in the assembled surface report, an option whose existence verdict
is not Confirmed (in particular Refuted) gets binding Undetermined with
reason "option existence not confirmed" and no binding kind. -/
theorem C9_unconfirmed_existence_binding
    (oracle : ProbeOracle) (plan : ProbePlan) (helpOptions : List HelpOption)
    (s : OptionSurface) (hs : s ∈ executePlan oracle plan helpOptions)
    (h : s.existence.status ≠ ValidationStatus.confirmed) :
    s.binding.status = ValidationStatus.undetermined
      ∧ s.binding.kind = none
      ∧ s.binding.reason = some "option existence not confirmed".data := by
  rcases List.mem_map.mp hs with ⟨planned, _, rfl⟩
  simp only [surfaceForOption] at h ⊢
  rw [if_pos h]
  exact ⟨rfl, rfl, rfl⟩

/-- C9 witness: a refuting existence probe on a one-option plan. -/
theorem C9_unconfirmed_existence_binding_witness :
    (surfaceForOption refutingOracle onePlan.stop_rules [] ⟨"--nope", [ProbeType.existence]⟩).binding.status
        = ValidationStatus.undetermined
      ∧ (surfaceForOption refutingOracle onePlan.stop_rules [] ⟨"--nope", [ProbeType.existence]⟩).binding.kind
        = none
      ∧ (surfaceForOption refutingOracle onePlan.stop_rules [] ⟨"--nope", [ProbeType.existence]⟩).binding.reason
        = some "option existence not confirmed".data :=
  C9_unconfirmed_existence_binding refutingOracle onePlan []
    (surfaceForOption refutingOracle onePlan.stop_rules [] ⟨"--nope", [ProbeType.existence]⟩)
    (by simp [executePlan, onePlan])
    (by decide)

/-- C10: help-text selection counts whitespace-only streams as empty —
stdout is selected only when non-empty after trimming, else stderr when
non-empty after trimming, else nothing; a whitespace-only `--help` capture
triggers the `-h` fallback; and when both flags produce only whitespace
the run aborts with the fatal no-help error while the self-report keeps
the original `--help` capture. -/
theorem C10_whitespace_help_selection :
    (∀ c : CaptureOutput,
        (¬ c.stdout.trim = "" → select_help_text c = some c.stdout)
      ∧ (c.stdout.trim = "" → ¬ c.stderr.trim = "" → select_help_text c = some c.stderr)
      ∧ (c.stdout.trim = "" → c.stderr.trim = "" → select_help_text c = none))
  ∧ (∀ (cap : List String → Except String CaptureOutput) (c1 c2 : CaptureOutput),
      cap ["--help"] = .ok c1 → c1.stdout.trim = "" → c1.stderr.trim = "" →
      cap ["-h"] = .ok c2 → (select_help_text c2).isSome = true →
      capture_help cap = .ok c2)
  ∧ (∀ (cap : List String → Except String CaptureOutput) (c1 c2 cv cu : CaptureOutput),
      cap ["--help"] = .ok c1 → c1.stdout.trim = "" → c1.stderr.trim = "" →
      cap ["-h"] = .ok c2 → c2.stdout.trim = "" → c2.stderr.trim = "" →
      cap ["--version"] = .ok cv → cap [USAGE_ERROR_ARG] = .ok cu →
      capture_self_report cap = .ok ⟨c1, cv, cu⟩
        ∧ surfaceHelpText cap
            = .error ("--help capture produced no output: exit="
                ++ rustDebugOptInt c1.exit_code)) := by
  refine ⟨?_, ?_, ?_⟩
  · intro c
    refine ⟨?_, ?_, ?_⟩ <;> intro h1 <;> try intro h2
    · simp [select_help_text, h1]
    · simp [select_help_text, h1, h2]
    · simp [select_help_text, h1, h2]
  · intro cap c1 c2 hc1 ho1 he1 hc2 hsel
    have hnone : select_help_text c1 = none := by simp [select_help_text, ho1, he1]
    simp [capture_help, hc1, hc2, hnone, hsel, Bind.bind, Except.bind, Pure.pure,
      Except.pure]
  · intro cap c1 c2 cv cu hc1 ho1 he1 hc2 ho2 he2 hcv hcu
    have hn1 : select_help_text c1 = none := by simp [select_help_text, ho1, he1]
    have hn2 : select_help_text c2 = none := by simp [select_help_text, ho2, he2]
    have hch : capture_help cap = .ok c1 := by
      simp [capture_help, hc1, hc2, hn1, hn2, Bind.bind, Except.bind, Pure.pure,
        Except.pure]
    have hsr : capture_self_report cap = .ok ⟨c1, cv, cu⟩ := by
      simp [capture_self_report, hch, hcv, hcu, Bind.bind, Except.bind, Pure.pure,
        Except.pure]
    refine ⟨hsr, ?_⟩
    simp [surfaceHelpText, hsr, hn1, Bind.bind, Except.bind, Pure.pure, Except.pure]

theorem checkPlannedOption_none_iff (allowed : List String) (maxPer : Nat)
    (seen : List String) (p : PlannedOption) :
    checkPlannedOption allowed maxPer seen p = none ↔
      (p.option ∈ allowed ∧ p.option ∉ seen
        ∧ p.probes ≠ [] ∧ p.probes.head? = some ProbeType.existence
        ∧ p.probes.length ≤ maxPer) := by
  unfold checkPlannedOption
  split_ifs with h1 h2 h3 h4 h5 <;> simp_all [List.isEmpty_iff]

theorem validatePlanLoop_ok_iff (allowed : List String) (maxPer : Nat) :
    ∀ (l : List PlannedOption) (seen : List String) (total : Nat),
      (∃ st, validatePlanLoop allowed maxPer l seen total = .ok st) ↔
        ((∀ p ∈ l, p.option ∈ allowed
            ∧ p.probes ≠ [] ∧ p.probes.head? = some ProbeType.existence
            ∧ p.probes.length ≤ maxPer)
          ∧ (l.map PlannedOption.option).Nodup
          ∧ (∀ p ∈ l, p.option ∉ seen)) := by
  intro l
  induction l with
  | nil => intro seen total; simp [validatePlanLoop]
  | cons p rest ih =>
    intro seen total
    constructor
    · rintro ⟨st, hst⟩
      unfold validatePlanLoop at hst
      rcases hcheck : checkPlannedOption allowed maxPer seen p with _ | e
      · rw [hcheck] at hst
        have hc := (checkPlannedOption_none_iff allowed maxPer seen p).mp hcheck
        have hrest := (ih (p.option :: seen) (total + p.probes.length)).mp ⟨st, hst⟩
        refine ⟨?_, ?_, ?_⟩
        · intro q hq
          rcases List.mem_cons.mp hq with hq | hq
          · subst hq
            exact ⟨hc.1, hc.2.2.1, hc.2.2.2.1, hc.2.2.2.2⟩
          · exact hrest.1 q hq
        · rw [List.map_cons, List.nodup_cons]
          refine ⟨?_, hrest.2.1⟩
          intro hmem
          rcases List.mem_map.mp hmem with ⟨q, hq, hqe⟩
          exact (hrest.2.2 q hq) (by rw [hqe]; exact List.mem_cons_self _ _)
        · intro q hq
          rcases List.mem_cons.mp hq with hq | hq
          · subst hq; exact hc.2.1
          · exact fun hmem =>
              (hrest.2.2 q hq) (List.mem_cons_of_mem _ hmem)
      · rw [hcheck] at hst
        exact absurd hst (by simp)
    · rintro ⟨hall, hnd, hseen⟩
      have hp := hall p (List.mem_cons_self p rest)
      have hc : checkPlannedOption allowed maxPer seen p = none :=
        (checkPlannedOption_none_iff allowed maxPer seen p).mpr
          ⟨hp.1, hseen p (List.mem_cons_self p rest), hp.2.1, hp.2.2.1, hp.2.2.2⟩
      rw [List.map_cons, List.nodup_cons] at hnd
      have hrest : ∃ st,
          validatePlanLoop allowed maxPer rest (p.option :: seen) (total + p.probes.length)
            = .ok st := by
        refine (ih (p.option :: seen) (total + p.probes.length)).mpr ⟨?_, hnd.2, ?_⟩
        · intro q hq; exact hall q (List.mem_cons_of_mem p hq)
        · intro q hq hmem
          rcases List.mem_cons.mp hmem with heq | hmem2
          · exact hnd.1 (heq ▸ List.mem_map_of_mem PlannedOption.option hq)
          · exact hseen q (List.mem_cons_of_mem p hq) hmem2
      rcases hrest with ⟨st, hst⟩
      refine ⟨st, ?_⟩
      unfold validatePlanLoop
      rw [hc]
      exact hst

theorem validatePlanLoop_ok_val (allowed : List String) (maxPer : Nat) :
    ∀ (l : List PlannedOption) (seen : List String) (total : Nat)
      (s : List String) (t : Nat),
      validatePlanLoop allowed maxPer l seen total = .ok (s, t) →
        s.length = seen.length + l.length
          ∧ t = total + (l.map (fun p => p.probes.length)).sum := by
  intro l
  induction l with
  | nil =>
    intro seen total s t h
    simp [validatePlanLoop] at h
    simp [h.1.symm, h.2.symm]
  | cons p rest ih =>
    intro seen total s t h
    unfold validatePlanLoop at h
    rcases hcheck : checkPlannedOption allowed maxPer seen p with _ | e
    · rw [hcheck] at h
      have := ih (p.option :: seen) (total + p.probes.length) s t h
      refine ⟨?_, ?_⟩
      · rw [this.1]; simp; omega
      · rw [this.2]; simp; omega
    · rw [hcheck] at h
      exact absurd h (by simp)

theorem coverage_length_iff (m a : List String) (hnd : m.Nodup)
    (hsub : ∀ x ∈ m, x ∈ a) :
    m.length = a.dedup.length ↔ ∀ o ∈ a, o ∈ m := by
  have hsub2 : m ⊆ a.dedup := fun x hx => List.mem_dedup.mpr (hsub x hx)
  have hsp : List.Subperm m a.dedup := hnd.subperm hsub2
  constructor
  · intro hlen o ho
    have hperm : m.Perm a.dedup := hsp.perm_of_length_le (le_of_eq hlen.symm)
    exact hperm.mem_iff.mpr (List.mem_dedup.mpr ho)
  · intro hcov
    have hsp2 : List.Subperm a.dedup m :=
      a.nodup_dedup.subperm (fun x hx => hcov x (List.mem_dedup.mp hx))
    exact Nat.le_antisymm hsp.length_le hsp2.length_le

/-- C4: plan validation succeeds exactly when the budget and stop rules
match the request's, every planned option lies in the candidate set with
no duplicates, every probe list is non-empty and starts with Existence,
the per-option and total probe budgets are respected, and the planned
options cover the candidate set; otherwise it returns an error. -/
theorem C4_validate_plan_ok_iff (plan : ProbePlan) (request : PlannerRequest) :
    validate_plan plan request = .ok () ↔
      (plan.budget = request.budget
        ∧ plan.stop_rules = request.stop_rules
        ∧ (∀ p ∈ plan.options, p.option ∈ request.options)
        ∧ (plan.options.map PlannedOption.option).Nodup
        ∧ (∀ p ∈ plan.options, p.probes ≠ [] ∧ p.probes.head? = some ProbeType.existence)
        ∧ (∀ p ∈ plan.options, p.probes.length ≤ request.budget.max_per_option)
        ∧ (plan.options.map (fun p => p.probes.length)).sum ≤ request.budget.max_total
        ∧ (∀ o, o ∈ request.options ↔ o ∈ plan.options.map PlannedOption.option)) := by
  unfold validate_plan
  split_ifs with hb hs
  · constructor
    · intro h; exact absurd h (by simp)
    · rintro ⟨h1, _⟩
      exact absurd hb (by rw [h1]; simp)
  · constructor
    · intro h; exact absurd h (by simp)
    · rintro ⟨_, h2, _⟩
      exact absurd hs (by rw [h2]; simp)
  · push_neg at hb hs
    have hbudget : plan.budget = request.budget := by
      cases hpb : plan.budget
      cases hrb : request.budget
      rw [hpb, hrb] at hb
      simpa using hb
    have hstop : plan.stop_rules = request.stop_rules := by
      cases hps : plan.stop_rules
      cases hrs : request.stop_rules
      rw [hps, hrs] at hs
      simpa using hs
    rcases hloop : validatePlanLoop request.options plan.budget.max_per_option
        plan.options [] 0 with e | ⟨s, t⟩
    · dsimp only
      constructor
      · intro h; exact absurd h (by simp)
      · rintro ⟨_, _, hmem, hnd, hprobes, hper, _, _⟩
        have : ∃ st, validatePlanLoop request.options plan.budget.max_per_option
            plan.options [] 0 = .ok st := by
          refine (validatePlanLoop_ok_iff request.options plan.budget.max_per_option
            plan.options [] 0).mpr ⟨?_, hnd, by simp⟩
          intro p hp
          exact ⟨hmem p hp, (hprobes p hp).1, (hprobes p hp).2,
            by rw [hbudget]; exact hper p hp⟩
        rcases this with ⟨st, hst⟩
        rw [hloop] at hst
        exact absurd hst (by simp)
    · have hval := validatePlanLoop_ok_val request.options plan.budget.max_per_option
        plan.options [] 0 s t hloop
      have hiff := (validatePlanLoop_ok_iff request.options plan.budget.max_per_option
        plan.options [] 0).mp ⟨(s, t), hloop⟩
      simp only [List.length_nil, Nat.zero_add] at hval
      dsimp only
      split_ifs with htot hcov
      · -- total exceeded: validation fails and the total-budget conjunct fails
        constructor
        · intro h; exact absurd h (by simp)
        · rintro ⟨_, _, _, _, _, _, hsum, _⟩
          rw [hbudget] at htot
          omega
      · -- coverage failed
        constructor
        · intro h; exact absurd h (by simp)
        · rintro ⟨_, _, hmem, hnd, _, _, _, hset⟩
          apply hcov
          rw [hval.1]
          have hlen : (plan.options.map PlannedOption.option).length
              = request.options.dedup.length := by
            refine (coverage_length_iff (plan.options.map PlannedOption.option)
              request.options hiff.2.1 ?_).mpr ?_
            · intro x hx
              rcases List.mem_map.mp hx with ⟨p, hp, hpe⟩
              exact hpe ▸ hmem p hp
            · intro o ho; exact (hset o).mp ho
          simpa using hlen
      · -- success: all conditions hold
        constructor
        · intro _
          have hslen : s.length = request.options.dedup.length := by omega
          refine ⟨hbudget, hstop, ?_, hiff.2.1, ?_, ?_, ?_, ?_⟩
          · intro p hp; exact (hiff.1 p hp).1
          · intro p hp; exact ⟨(hiff.1 p hp).2.1, (hiff.1 p hp).2.2.1⟩
          · intro p hp
            rw [← hbudget]
            exact (hiff.1 p hp).2.2.2
          · rw [← hbudget]
            omega
          · intro o
            constructor
            · intro ho
              have hlen : (plan.options.map PlannedOption.option).length
                  = request.options.dedup.length := by
                rw [hval.1] at hslen
                simpa using hslen
              exact (coverage_length_iff (plan.options.map PlannedOption.option)
                request.options hiff.2.1
                (fun x hx => by
                  rcases List.mem_map.mp hx with ⟨p, hp, hpe⟩
                  exact hpe ▸ (hiff.1 p hp).1)).mp hlen o ho
            · intro ho
              rcases List.mem_map.mp ho with ⟨p, hp, hpe⟩
              exact hpe ▸ (hiff.1 p hp).1
        · intro _; rfl

theorem fold_insert_flat (rows : List (List Char)) :
    ∀ acc : List HelpOption,
      rows.foldl
        (fun acc spec_segment =>
          match parse_option_spec (tokenize_spec spec_segment) with
          | none => acc
          | some spec =>
            if spec.options.isEmpty then acc
            else
              let binding := spec.arg.map bindingOfArg
              spec.options.foldl
                (fun acc raw => insertHelpOption acc (String.mk raw) binding) acc)
        acc
      = (rows.flatMap (fun spec_segment =>
          match parse_option_spec (tokenize_spec spec_segment) with
          | none => []
          | some spec =>
            if spec.options.isEmpty then []
            else spec.options.map
              (fun raw => (String.mk raw, spec.arg.map bindingOfArg)))).foldl
          (fun acc p => insertHelpOption acc p.1 p.2) acc := by
  induction rows with
  | nil => intro acc; rfl
  | cons row rest ih =>
    intro acc
    rw [List.foldl_cons, List.flatMap_cons, List.foldl_append, ih]
    congr 1
    rcases hp : parse_option_spec (tokenize_spec row) with _ | spec
    · rfl
    · by_cases hemp : spec.options.isEmpty
      · simp [hemp]
      · simp only [hemp, Bool.false_eq_true, if_false, List.foldl_map]

theorem extract_help_options_eq_fold (content : List Char) :
    extract_help_options content
      = (helpOccurrences content).foldl
          (fun acc p => insertHelpOption acc p.1 p.2) [] := by
  unfold extract_help_options helpOccurrences
  exact fold_insert_flat (detect_option_rows content) []

theorem mergeNone (x : Option BindingHint) : merge_binding_hint none x = x := by
  cases x <;> rfl

theorem insert_tokens (acc : List HelpOption) (o : String) (b : Option BindingHint) :
    (insertHelpOption acc o b).map HelpOption.option
      = if o ∈ acc.map HelpOption.option then acc.map HelpOption.option
        else acc.map HelpOption.option ++ [o] := by
  induction acc with
  | nil => simp [insertHelpOption]
  | cons e rest ih =>
    by_cases he : e.option = o
    · simp [insertHelpOption, he]
    · simp only [insertHelpOption, if_neg he, List.map_cons, ih, List.mem_cons]
      by_cases hm : o ∈ rest.map HelpOption.option
      · simp [hm]
      · simp [hm, Ne.symm he]

theorem insert_find_same (acc : List HelpOption) (o : String) (b : Option BindingHint) :
    (insertHelpOption acc o b).find? (fun e => e.option == o)
      = some ⟨o, merge_binding_hint
          (Option.bind (acc.find? (fun e => e.option == o)) (fun e => e.binding)) b⟩ := by
  induction acc with
  | nil => simp [insertHelpOption, List.find?, mergeNone]
  | cons e rest ih =>
    by_cases he : e.option = o
    · simp [insertHelpOption, he, List.find?]
    · have hbe : (e.option == o) = false := by simp [he]
      simp [insertHelpOption, if_neg he, List.find?, hbe, ih]

theorem insert_find_other (acc : List HelpOption) (o : String) (b : Option BindingHint)
    (t : String) (h : ¬ t = o) :
    (insertHelpOption acc o b).find? (fun e => e.option == t)
      = acc.find? (fun e => e.option == t) := by
  have hot : (o == t) = false :=
    beq_eq_false_iff_ne.mpr (fun hh => h hh.symm)
  induction acc with
  | nil => simp [insertHelpOption, List.find?, hot]
  | cons e rest ih =>
    by_cases he : e.option = o
    · have hne : (e.option == t) = false := by rw [he]; exact hot
      simp [insertHelpOption, he, List.find?, hne, hot]
    · rcases hbe : (e.option == t) with _ | _
      · simp [insertHelpOption, if_neg he, List.find?, hbe, ih]
      · simp [insertHelpOption, if_neg he, List.find?, hbe]

theorem firstObserved_congr (l : List String) :
    ∀ (s1 s2 : List String), (∀ x, x ∈ s1 ↔ x ∈ s2) →
      firstObserved s1 l = firstObserved s2 l := by
  induction l with
  | nil => intro s1 s2 _; rfl
  | cons t ts ih =>
    intro s1 s2 hmem
    by_cases ht : t ∈ s1
    · rw [firstObserved, firstObserved, if_pos ht, if_pos ((hmem t).mp ht)]
      exact ih s1 s2 hmem
    · rw [firstObserved, firstObserved, if_neg ht,
        if_neg (fun hc => ht ((hmem t).mpr hc))]
      refine congrArg (t :: ·) (ih (t :: s1) (t :: s2) ?_)
      intro x
      simp [hmem x]

theorem buildFold_tokens (occ : List (String × Option BindingHint)) :
    ∀ (acc : List HelpOption),
      ((occ.foldl (fun acc p => insertHelpOption acc p.1 p.2) acc)).map HelpOption.option
        = acc.map HelpOption.option
            ++ firstObserved (acc.map HelpOption.option) (occ.map Prod.fst) := by
  induction occ with
  | nil => intro acc; simp [firstObserved]
  | cons p rest ih =>
    intro acc
    rw [List.foldl_cons, ih (insertHelpOption acc p.1 p.2), insert_tokens,
      List.map_cons]
    by_cases hm : p.1 ∈ acc.map HelpOption.option
    · rw [if_pos hm, firstObserved, if_pos hm]
    · rw [if_neg hm, firstObserved, if_neg hm, List.append_assoc,
        List.singleton_append]
      refine congrArg _ (congrArg _ ?_)
      refine firstObserved_congr (rest.map Prod.fst) _ _ ?_
      intro x
      simp [or_comm]

theorem firstObserved_props (l : List String) :
    ∀ seen, (firstObserved seen l).Nodup ∧ ∀ x ∈ firstObserved seen l, x ∉ seen := by
  induction l with
  | nil => intro seen; simp [firstObserved]
  | cons t ts ih =>
    intro seen
    by_cases ht : t ∈ seen
    · rw [firstObserved, if_pos ht]; exact ih seen
    · rw [firstObserved, if_neg ht]
      have h2 := ih (t :: seen)
      refine ⟨List.nodup_cons.mpr ⟨?_, h2.1⟩, ?_⟩
      · intro hmem
        exact (h2.2 t hmem) (List.mem_cons_self _ _)
      · intro x hx
        rcases List.mem_cons.mp hx with rfl | hx2
        · exact ht
        · exact fun hs => (h2.2 x hx2) (List.mem_cons_of_mem _ hs)

theorem buildFold_find (occ : List (String × Option BindingHint)) :
    ∀ (acc : List HelpOption) (t : String),
      (((occ.foldl (fun acc p => insertHelpOption acc p.1 p.2) acc)).find?
          (fun e => e.option == t)).map (fun e => e.binding)
        = match (acc.find? (fun e => e.option == t)).map (fun e => e.binding) with
          | some ob => some ((hintsFor t occ).foldl merge_binding_hint ob)
          | none =>
            if t ∈ occ.map Prod.fst then
              some ((hintsFor t occ).foldl merge_binding_hint none)
            else none := by
  induction occ with
  | nil =>
    intro acc t
    rcases h : acc.find? (fun e => e.option == t) with _ | e <;>
      simp [hintsFor, h, firstObserved]
  | cons p rest ih =>
    intro acc t
    by_cases hpt : t = p.1
    · subst hpt
      have hhint : hintsFor p.1 (p :: rest) = p.2 :: hintsFor p.1 rest := by
        unfold hintsFor
        rw [List.filter_cons, if_pos (by simp)]
        rfl
      rw [List.foldl_cons, ih (insertHelpOption acc p.1 p.2) p.1,
        insert_find_same acc p.1 p.2, hhint]
      rcases h : acc.find? (fun e => e.option == p.1) with _ | e <;>
        rw [h] <;> simp [List.foldl_cons, mergeNone]
    · have hhint : hintsFor t (p :: rest) = hintsFor t rest := by
        unfold hintsFor
        rw [List.filter_cons,
          if_neg (by simp only [beq_iff_eq]; exact fun hh => hpt hh.symm)]
      rw [List.foldl_cons, ih (insertHelpOption acc p.1 p.2) t,
        insert_find_other acc p.1 p.2 t hpt, hhint]
      rcases h : acc.find? (fun e => e.option == t) with _ | e
      · rw [h]
        by_cases hm2 : t ∈ List.map Prod.fst rest
        · simp [hm2]
        · simp [hm2, hpt]
      · rw [h]
        simp

theorem buildFold_find_nil (occ : List (String × Option BindingHint)) (t : String) :
    (((occ.foldl (fun acc p => insertHelpOption acc p.1 p.2) [])).find?
        (fun e => e.option == t)).map (fun e => e.binding)
      = if t ∈ occ.map Prod.fst then
          some ((hintsFor t occ).foldl merge_binding_hint none)
        else none := by
  have h := buildFold_find occ [] t
  simpa using h

theorem firstObserved_subset (l : List String) :
    ∀ (seen : List String) (x : String), x ∈ firstObserved seen l → x ∈ l := by
  induction l with
  | nil => intro seen x hx; simp [firstObserved] at hx
  | cons t ts ih =>
    intro seen x hx
    by_cases ht : t ∈ seen
    · rw [firstObserved, if_pos ht] at hx
      exact List.mem_cons_of_mem _ (ih seen x hx)
    · rw [firstObserved, if_neg ht] at hx
      rcases List.mem_cons.mp hx with rfl | hx2
      · exact List.mem_cons_self _ _
      · exact List.mem_cons_of_mem _ (ih (t :: seen) x hx2)

theorem find_mem_of_nodup (acc : List HelpOption) (e : HelpOption)
    (hnd : (acc.map HelpOption.option).Nodup) (he : e ∈ acc) :
    acc.find? (fun x => x.option == e.option) = some e := by
  induction acc with
  | nil => cases he
  | cons x rest ih =>
    rcases List.mem_cons.mp he with rfl | hmem
    · simp [List.find?]
    · rw [List.map_cons, List.nodup_cons] at hnd
      have hxe : (x.option == e.option) = false := by
        simp only [beq_eq_false_iff_ne, ne_eq]
        intro hc
        exact hnd.1 (hc ▸ List.mem_map_of_mem HelpOption.option hmem)
      rw [List.find?, hxe]
      exact ih hnd.2 hmem

/-- C8: the extracted option list holds one record per distinct token, in
first-observed document order; a token's final hint is the fold of its
occurrences' hints under the attached-over-trailing merge, which replaces
a Trailing hint by an incoming Attached hint, never drops an existing
hint, and fills an absent one. -/
theorem C8_help_merge_invariants (content : List Char) :
    ((extract_help_options content).map HelpOption.option).Nodup
  ∧ (extract_help_options content).map HelpOption.option
      = firstObserved [] ((helpOccurrences content).map Prod.fst)
  ∧ (∀ e ∈ extract_help_options content,
      e.binding = (hintsFor e.option (helpOccurrences content)).foldl merge_binding_hint none)
  ∧ (∀ x : Option BindingHint, merge_binding_hint none x = x)
  ∧ (∀ (h : BindingHint) (x : Option BindingHint),
      merge_binding_hint (some h) x ≠ none)
  ∧ (∀ h h2 : BindingHint, merge_binding_hint (some h) (some h2)
      = if h.form = ValueForm.trailing ∧ h2.form = ValueForm.attached then some h2
        else some h) := by
  have htok : (extract_help_options content).map HelpOption.option
      = firstObserved [] ((helpOccurrences content).map Prod.fst) := by
    rw [extract_help_options_eq_fold]
    simpa using buildFold_tokens (helpOccurrences content) []
  refine ⟨?_, htok, ?_, mergeNone, ?_, ?_⟩
  · rw [htok]
    exact (firstObserved_props ((helpOccurrences content).map Prod.fst) []).1
  · intro e he
    have hnd : ((extract_help_options content).map HelpOption.option).Nodup := by
      rw [htok]
      exact (firstObserved_props ((helpOccurrences content).map Prod.fst) []).1
    have hfind := find_mem_of_nodup (extract_help_options content) e hnd he
    have hmem : e.option ∈ (helpOccurrences content).map Prod.fst := by
      have hm1 : e.option ∈ (extract_help_options content).map HelpOption.option :=
        List.mem_map_of_mem HelpOption.option he
      rw [htok] at hm1
      exact firstObserved_subset ((helpOccurrences content).map Prod.fst) [] e.option hm1
    have h2 := buildFold_find_nil (helpOccurrences content) e.option
    rw [← extract_help_options_eq_fold, hfind, if_pos hmem] at h2
    simpa using h2
  · intro h x
    cases x <;> (simp [merge_binding_hint]; try (split_ifs <;> simp))
  · intro h h2
    rfl

theorem findSubIdx_cons (pat : List Char) (a : Char) (rest : List Char) :
    findSubIdx pat (a :: rest)
      = if pat.isPrefixOf (a :: rest) then some 0
        else (findSubIdx pat rest).map (· + 1) := rfl

theorem findSubIdx_head_not_mem (c : Char) (p : List Char) :
    ∀ l : List Char, c ∉ l → findSubIdx (c :: p) l = none := by
  intro l
  induction l with
  | nil => intro _; rfl
  | cons a as ih =>
    intro h
    rw [findSubIdx_cons]
    have hca : (c == a) = false :=
      beq_eq_false_iff_ne.mpr (fun he => h (he ▸ List.mem_cons_self a as))
    rw [if_neg (by simp [List.isPrefixOf, hca]),
      ih (fun hm => h (List.mem_cons_of_mem a hm))]
    rfl

theorem findSubIdx_some_prefix (pat : List Char) :
    ∀ (l : List Char) (i : Nat), findSubIdx pat l = some i →
      pat.isPrefixOf (l.drop i) = true := by
  intro l
  induction l with
  | nil =>
    intro i h
    unfold findSubIdx at h
    by_cases hp : pat.isEmpty
    · rw [if_pos hp] at h
      cases h
      simp [List.isEmpty_iff.mp hp, List.isPrefixOf]
    · rw [if_neg hp] at h
      cases h
  | cons a as ih =>
    intro i h
    rw [findSubIdx_cons] at h
    by_cases hp : pat.isPrefixOf (a :: as)
    · rw [if_pos hp] at h
      cases h
      simpa using hp
    · rw [if_neg hp] at h
      rcases Option.map_eq_some'.mp h with ⟨j, hj, hij⟩
      rw [← hij]
      exact ih j hj

theorem isPrefixOf_append_drop (p l : List Char) (h : p.isPrefixOf l = true) :
    l = p ++ l.drop p.length := by
  rcases List.isPrefixOf_iff_prefix.mp h with ⟨v, hv⟩
  rw [← hv, List.drop_left]

theorem findSubIdx_isSome_of_decomp (c : Char) (p : List Char) :
    ∀ (u v : List Char), (findSubIdx (c :: p) (u ++ (c :: p) ++ v)).isSome = true := by
  intro u
  induction u with
  | nil =>
    intro v
    simp only [List.nil_append, List.cons_append]
    rw [findSubIdx_cons,
      if_pos (List.isPrefixOf_iff_prefix.mpr ⟨v, by simp⟩)]
    rfl
  | cons a u2 ih =>
    intro v
    simp only [List.cons_append]
    rw [findSubIdx_cons]
    by_cases hp : (c :: p).isPrefixOf (a :: (u2 ++ (c :: p) ++ v))
    · rw [if_pos hp]; rfl
    · rw [if_neg hp]
      have h2 := ih v
      simp only [List.cons_append] at h2 ⊢
      rcases Option.isSome_iff_exists.mp h2 with ⟨j, hj⟩
      rw [hj]
      rfl

theorem findSubIdx_append_cons (c : Char) (p : List Char) :
    ∀ (u rest : List Char), c ∉ u → (c :: p).isPrefixOf (c :: rest) = true →
      findSubIdx (c :: p) (u ++ c :: rest) = some u.length := by
  intro u
  induction u with
  | nil =>
    intro rest _ hpre
    simp only [List.nil_append]
    rw [findSubIdx_cons, if_pos hpre]
    rfl
  | cons a u2 ih =>
    intro rest h hpre
    simp only [List.cons_append]
    rw [findSubIdx_cons]
    have hca : (c == a) = false :=
      beq_eq_false_iff_ne.mpr (fun he => h (he ▸ List.mem_cons_self a u2))
    rw [if_neg (by simp [List.isPrefixOf, hca]),
      ih rest (fun hm => h (List.mem_cons_of_mem a hm)) hpre]
    rfl

theorem findSubIdx_single_none (c : Char) (l : List Char) (h : c ∉ l) :
    findSubIdx [c] l = none :=
  findSubIdx_head_not_mem c [] l h

theorem findSubIdx_bracketEq_none :
    ∀ l : List Char, '=' ∉ l → findSubIdx ['[', '='] l = none := by
  intro l
  induction l with
  | nil => intro _; rfl
  | cons a as ih =>
    intro h
    rw [findSubIdx_cons]
    have hpre : (['[', '='].isPrefixOf (a :: as)) = false := by
      cases as with
      | nil => simp [List.isPrefixOf]
      | cons b bs =>
        have hb : ('=' == b) = false :=
          beq_eq_false_iff_ne.mpr
            (fun he => h (by
              rw [he]
              exact List.mem_cons_of_mem a (List.mem_cons_self b bs)))
        simp [List.isPrefixOf, hb]
    rw [if_neg (by simp [hpre]), ih (fun hm => h (List.mem_cons_of_mem a hm))]
    rfl

theorem hasBracketEq_iff_isSome (s : List Char) :
    hasBracketEq s ↔ (findSubIdx ['[', '='] s).isSome = true := by
  constructor
  · rintro ⟨u, v, rfl⟩
    simpa using findSubIdx_isSome_of_decomp '[' ['='] u v
  · intro h
    rcases Option.isSome_iff_exists.mp h with ⟨i, hi⟩
    have hpre := findSubIdx_some_prefix ['[', '='] s i hi
    refine ⟨s.take i, (s.drop i).drop 2, ?_⟩
    conv_lhs => rw [← List.take_append_drop i s]
    rw [isPrefixOf_append_drop ['[', '='] (s.drop i) hpre]
    rfl

theorem splitEqForm_sound (token optPart : List Char) (argForm : Option ArgToken)
    (h : splitEqForm token = some (optPart, argForm)) :
    (argForm = none ∧ optPart = token ∧ '=' ∉ token)
      ∨ (argForm = some ⟨false, ArgSource.attached⟩
          ∧ ∃ arg, arg ≠ [] ∧ token = optPart ++ '=' :: arg) := by
  unfold splitEqForm at h
  rcases heq : findSubIdx ['='] token with _ | j
  · rw [heq] at h
    dsimp only at h
    refine Or.inl ⟨?_, ?_, ?_⟩
    · cases h; rfl
    · cases h; rfl
    · intro hmem
      rcases List.append_of_mem hmem with ⟨u, v, hv⟩
      have h2 := findSubIdx_isSome_of_decomp '=' [] u v
      have h3 : u ++ ['='] ++ v = u ++ '=' :: v := by simp
      rw [h3, ← hv, heq] at h2
      cases h2
  · rw [heq] at h
    dsimp only at h
    by_cases harg : (token.drop (j + 1)).isEmpty
    · rw [if_pos harg] at h
      cases h
    · rw [if_neg harg] at h
      have hpre := findSubIdx_some_prefix ['='] token j heq
      have hdec := isPrefixOf_append_drop ['='] (token.drop j) hpre
      refine Or.inr ⟨by cases h; rfl, token.drop (j + 1), ?_, ?_⟩
      · intro hc
        rw [hc] at harg
        simp at harg
      · have hdc : token.drop j = '=' :: token.drop (j + 1) := by
          rw [hdec]
          simp [List.drop_drop, Nat.add_comm]
        cases h
        conv_lhs => rw [← List.take_append_drop j token]
        rw [hdc]

theorem split_attached_sound (token optPart : List Char) (argForm : Option ArgToken)
    (h : split_attached_arg_form token = some (optPart, argForm)) :
    (argForm = none ∧ optPart = token ∧ '=' ∉ token)
      ∨ (argForm = some ⟨false, ArgSource.attached⟩
          ∧ (∃ arg, arg ≠ [] ∧ token = optPart ++ '=' :: arg)
          ∧ ¬ (hasBracketEq token ∧ token.getLast? = some ']'))
      ∨ (argForm = some ⟨true, ArgSource.attached⟩
          ∧ ∃ arg, arg ≠ [] ∧ token = optPart ++ '[' :: '=' :: arg ++ [']']) := by
  unfold split_attached_arg_form at h
  rcases hbr : findSubIdx ['[', '='] token with _ | idx
  · rw [hbr] at h
    dsimp only at h
    have hnob : ¬ hasBracketEq token := by
      intro hc
      have := (hasBracketEq_iff_isSome token).mp hc
      rw [hbr] at this
      cases this
    rcases splitEqForm_sound token optPart argForm h with h1 | h2
    · exact Or.inl h1
    · exact Or.inr (Or.inl ⟨h2.1, h2.2, fun hc => hnob hc.1⟩)
  · rw [hbr] at h
    dsimp only at h
    by_cases hend : token.getLast? = some ']'
    · rw [if_pos hend] at h
      by_cases harg : ((token.drop (idx + 2)).dropLast).isEmpty
      · rw [if_pos harg] at h
        cases h
      · rw [if_neg harg] at h
        have hpre := findSubIdx_some_prefix ['[', '='] token idx hbr
        have hdec := isPrefixOf_append_drop ['[', '='] (token.drop idx) hpre
        have hdrop2 : token.drop idx = '[' :: '=' :: token.drop (idx + 2) := by
          rw [hdec]
          simp [List.drop_drop, Nat.add_comm]
        have hne : token.drop (idx + 2) ≠ [] := by
          intro hc
          rw [hc] at harg
          simp at harg
        have hlast : (token.drop (idx + 2)).getLast? = some ']' := by
          rw [← hend]
          conv_rhs => rw [← List.take_append_drop (idx + 2) token]
          rw [List.getLast?_append_of_ne_nil _ hne]
        have hsplit : token.drop (idx + 2)
            = (token.drop (idx + 2)).dropLast ++ [']'] := by
          conv_lhs => rw [← List.dropLast_append_getLast hne]
          rw [List.getLast?_eq_getLast _ hne] at hlast
          rw [Option.some_inj.mp hlast]
        refine Or.inr (Or.inr ⟨by cases h; rfl, (token.drop (idx + 2)).dropLast, ?_, ?_⟩)
        · intro hc
          rw [hc] at harg
          simp at harg
        · cases h
          conv_lhs => rw [← List.take_append_drop idx token]
          rw [hdrop2, hsplit]
          simp
    · rw [if_neg hend] at h
      rcases splitEqForm_sound token optPart argForm h with h1 | h2
      · exact Or.inl h1
      · exact Or.inr (Or.inl ⟨h2.1, h2.2, fun hc => hend hc.2⟩)

theorem split_attached_complete_bare (token : List Char) (h : '=' ∉ token) :
    split_attached_arg_form token = some (token, none) := by
  unfold split_attached_arg_form splitEqForm
  rw [findSubIdx_bracketEq_none token h, findSubIdx_single_none '=' token h]

theorem split_attached_complete_eq (optPart arg : List Char)
    (hno : '=' ∉ optPart) (harg : arg ≠ [])
    (hprec : ¬ (hasBracketEq (optPart ++ '=' :: arg)
        ∧ (optPart ++ '=' :: arg).getLast? = some ']')) :
    split_attached_arg_form (optPart ++ '=' :: arg)
      = some (optPart, some ⟨false, ArgSource.attached⟩) := by
  have heq : findSubIdx ['='] (optPart ++ '=' :: arg) = some optPart.length :=
    findSubIdx_append_cons '=' [] optPart arg hno (by simp [List.isPrefixOf])
  have hdrop : (optPart ++ '=' :: arg).drop (optPart.length + 1) = arg := by
    rw [← List.drop_drop, List.drop_left]
    rfl
  have hsplit : splitEqForm (optPart ++ '=' :: arg)
      = some (optPart, some ⟨false, ArgSource.attached⟩) := by
    unfold splitEqForm
    rw [heq]
    dsimp only
    rw [hdrop, if_neg (by simp [harg]), List.take_left]
  unfold split_attached_arg_form
  rcases hbr : findSubIdx ['[', '='] (optPart ++ '=' :: arg) with _ | idx
  · exact hsplit
  · have hb : hasBracketEq (optPart ++ '=' :: arg) :=
      (hasBracketEq_iff_isSome _).mpr (by rw [hbr]; rfl)
    have hend : ¬ (optPart ++ '=' :: arg).getLast? = some ']' :=
      fun hc => hprec ⟨hb, hc⟩
    dsimp only
    rw [if_neg hend]
    exact hsplit

theorem split_attached_complete_br (optPart arg : List Char)
    (hno : '[' ∉ optPart) (harg : arg ≠ []) :
    split_attached_arg_form (optPart ++ '[' :: '=' :: arg ++ [']'])
      = some (optPart, some ⟨true, ArgSource.attached⟩) := by
  have hshape : optPart ++ '[' :: '=' :: arg ++ [']']
      = optPart ++ '[' :: '=' :: (arg ++ [']']) := by simp
  rw [hshape]
  have hbr : findSubIdx ['[', '='] (optPart ++ '[' :: '=' :: (arg ++ [']']))
      = some optPart.length :=
    findSubIdx_append_cons '[' ['='] optPart ('=' :: (arg ++ [']'])) hno
      (by simp [List.isPrefixOf])
  unfold split_attached_arg_form
  rw [hbr]
  dsimp only
  have hend : (optPart ++ '[' :: '=' :: (arg ++ [']'])).getLast? = some ']' := by
    rw [← hshape, List.getLast?_append_of_ne_nil _ (by simp)]
    rfl
  rw [if_pos hend]
  have hdrop : (optPart ++ '[' :: '=' :: (arg ++ [']'])).drop (optPart.length + 2)
      = arg ++ [']'] := by
    rw [← List.drop_drop, List.drop_left]
    rfl
  rw [hdrop, List.dropLast_concat, if_neg (by simp [harg]), List.take_left]

theorem eq_dashdash_of_append (u x t : List Char) (h : u ++ x = '-' :: '-' :: t)
    (hlen : u.drop 2 ≠ []) : u = '-' :: '-' :: u.drop 2 := by
  rcases u with _ | ⟨a, _ | ⟨b, u2⟩⟩
  · simp at hlen
  · simp at hlen
  · simp only [List.cons_append] at h
    injection h with h1 h2
    injection h2 with h2 _
    rw [h1, h2]
    rfl

theorem longNameOk_no_special (name : List Char) (h : longNameOk name = true) :
    '=' ∉ name ∧ '[' ∉ name := by
  unfold longNameOk at h
  rcases name with _ | ⟨first, rest⟩
  · simp
  · simp only [Bool.and_eq_true, List.all_eq_true] at h
    constructor <;> intro hmem <;> rcases List.mem_cons.mp hmem with heq | hmem2
    · rw [← heq] at h
      exact absurd h.1 (by decide)
    · exact absurd (h.2 '=' hmem2) (by decide)
    · rw [← heq] at h
      exact absurd h.1 (by decide)
    · exact absurd (h.2 '[' hmem2) (by decide)

theorem longNameOk_ne_nil (name : List Char) (h : longNameOk name = true) :
    name ≠ [] := by
  intro hc
  rw [hc] at h
  exact absurd h (by decide)

theorem parse_long_sound (s optPart : List Char) (argForm : Option ArgToken)
    (h : parse_long_option_segment s = some (optPart, argForm)) :
    ∃ name, longNameOk name = true ∧ optPart = '-' :: '-' :: name
      ∧ ((argForm = none ∧ s = '-' :: '-' :: name)
        ∨ (argForm = some ⟨false, ArgSource.attached⟩
            ∧ (∃ arg, arg ≠ [] ∧ s = '-' :: '-' :: name ++ '=' :: arg)
            ∧ ¬ (hasBracketEq s ∧ s.getLast? = some ']'))
        ∨ (argForm = some ⟨true, ArgSource.attached⟩
            ∧ ∃ arg, arg ≠ [] ∧ s = '-' :: '-' :: name ++ '[' :: '=' :: arg ++ [']'])) := by
  unfold parse_long_option_segment at h
  by_cases hpre : (['-', '-'].isPrefixOf s) = true
  case neg =>
    rw [if_pos (by simpa using hpre)] at h
    cases h
  rw [if_neg (by simp [hpre])] at h
  by_cases hlen : s.length ≤ 2
  case pos =>
    rw [if_pos hlen] at h
    cases h
  rw [if_neg hlen] at h
  rcases hs : split_attached_arg_form s with _ | ⟨op, af⟩
  · rw [hs] at h
    cases h
  rw [hs] at h
  dsimp only at h
  rcases hdrop : op.drop 2 with _ | ⟨first, rest⟩
  · rw [hdrop] at h
    cases h
  rw [hdrop] at h
  dsimp only at h
  split_ifs at h with h1 h2
  simp only [Option.some.injEq, Prod.mk.injEq] at h
  obtain ⟨hop, haf⟩ := h
  have hfirst : first.isAlphanum = true := h1
  have hall : rest.all (fun c => c.isAlphanum || c = '-') = true := h2
  have hnm : longNameOk (first :: rest) = true := by
    unfold longNameOk
    rw [Bool.and_eq_true]
    exact ⟨hfirst, hall⟩
  have hsd : s = '-' :: '-' :: s.drop 2 := by
    have hd := isPrefixOf_append_drop ['-', '-'] s hpre
    simpa using hd
  rcases split_attached_sound s op af hs with ⟨haf0, hop0, _⟩ | h2c | h3c
  · refine ⟨first :: rest, hnm, ?_, Or.inl ⟨?_, ?_⟩⟩
    · rw [← hop, hop0, hsd]
      rw [hop0] at hdrop
      rw [hdrop]
    · rw [← haf, haf0]
    · rw [hop0] at hdrop
      rw [hsd, hdrop]
  · obtain ⟨haf1, ⟨arg, hargne, hdecomp⟩, hprec⟩ := h2c
    have hopA : op = '-' :: '-' :: op.drop 2 :=
      eq_dashdash_of_append op ('=' :: arg) (s.drop 2)
        (hdecomp.symm.trans hsd) (by rw [hdrop]; simp)
    rw [hdrop] at hopA
    refine ⟨first :: rest, hnm, ?_, Or.inr (Or.inl ⟨?_, ⟨arg, hargne, ?_⟩, hprec⟩)⟩
    · rw [← hop, hopA]
    · rw [← haf, haf1]
    · rw [hdecomp, hopA]
  · obtain ⟨haf1, arg, hargne, hdecomp⟩ := h3c
    have hshape : op ++ ('[' :: '=' :: arg ++ [']']) = '-' :: '-' :: s.drop 2 := by
      rw [← hsd, hdecomp]
      simp
    have hopA : op = '-' :: '-' :: op.drop 2 :=
      eq_dashdash_of_append op ('[' :: '=' :: arg ++ [']']) (s.drop 2)
        hshape (by rw [hdrop]; simp)
    rw [hdrop] at hopA
    refine ⟨first :: rest, hnm, ?_, Or.inr (Or.inr ⟨?_, arg, hargne, ?_⟩)⟩
    · rw [← hop, hopA]
    · rw [← haf, haf1]
    · rw [hdecomp, hopA]

theorem parse_long_complete_bare (name : List Char) (h : longNameOk name = true) :
    parse_long_option_segment ('-' :: '-' :: name) = some ('-' :: '-' :: name, none) := by
  obtain ⟨first, rest, rfl⟩ : ∃ a l, name = a :: l := by
    rcases name with _ | ⟨a, l⟩
    · exact absurd h (by decide)
    · exact ⟨a, l, rfl⟩
  have hspecial := longNameOk_no_special _ h
  have hnomem : '=' ∉ '-' :: '-' :: first :: rest := by
    intro hm
    rcases List.mem_cons.mp hm with h1 | hm2
    · exact absurd h1 (by decide)
    rcases List.mem_cons.mp hm2 with h1 | hm3
    · exact absurd h1 (by decide)
    exact hspecial.1 hm3
  unfold longNameOk at h
  rw [Bool.and_eq_true] at h
  unfold parse_long_option_segment
  rw [if_neg (by simp [List.isPrefixOf]),
    if_neg (by simp only [List.length_cons, Nat.not_le]; omega),
    split_attached_complete_bare _ hnomem]
  dsimp only [List.drop]
  rw [if_neg (by simp [h.1]), if_neg (by simp [h.2])]

theorem parse_long_complete_eq (name arg : List Char) (h : longNameOk name = true)
    (harg : arg ≠ [])
    (hprec : ¬ (hasBracketEq ('-' :: '-' :: name ++ '=' :: arg)
        ∧ ('-' :: '-' :: name ++ '=' :: arg).getLast? = some ']')) :
    parse_long_option_segment ('-' :: '-' :: name ++ '=' :: arg)
      = some ('-' :: '-' :: name, some ⟨false, ArgSource.attached⟩) := by
  obtain ⟨first, rest, rfl⟩ : ∃ a l, name = a :: l := by
    rcases name with _ | ⟨a, l⟩
    · exact absurd h (by decide)
    · exact ⟨a, l, rfl⟩
  have hspecial := longNameOk_no_special _ h
  have hnomem : '=' ∉ '-' :: '-' :: first :: rest := by
    intro hm
    rcases List.mem_cons.mp hm with h1 | hm2
    · exact absurd h1 (by decide)
    rcases List.mem_cons.mp hm2 with h1 | hm3
    · exact absurd h1 (by decide)
    exact hspecial.1 hm3
  have hsplit := split_attached_complete_eq ('-' :: '-' :: first :: rest) arg hnomem harg
    (by simpa using hprec)
  unfold longNameOk at h
  rw [Bool.and_eq_true] at h
  unfold parse_long_option_segment
  rw [if_neg (by simp [List.isPrefixOf]),
    if_neg (by simp [List.length_cons])]
  rw [show ('-' :: '-' :: first :: rest ++ '=' :: arg)
      = ('-' :: '-' :: first :: rest) ++ '=' :: arg by simp]
  rw [hsplit]
  dsimp only [List.drop]
  rw [if_neg (by simp [h.1]), if_neg (by simp [h.2])]

theorem parse_long_complete_br (name arg : List Char) (h : longNameOk name = true)
    (harg : arg ≠ []) :
    parse_long_option_segment ('-' :: '-' :: name ++ '[' :: '=' :: arg ++ [']'])
      = some ('-' :: '-' :: name, some ⟨true, ArgSource.attached⟩) := by
  obtain ⟨first, rest, rfl⟩ : ∃ a l, name = a :: l := by
    rcases name with _ | ⟨a, l⟩
    · exact absurd h (by decide)
    · exact ⟨a, l, rfl⟩
  have hspecial := longNameOk_no_special _ h
  have hnomem : '[' ∉ '-' :: '-' :: first :: rest := by
    intro hm
    rcases List.mem_cons.mp hm with h1 | hm2
    · exact absurd h1 (by decide)
    rcases List.mem_cons.mp hm2 with h1 | hm3
    · exact absurd h1 (by decide)
    exact hspecial.2 hm3
  have hsplit := split_attached_complete_br ('-' :: '-' :: first :: rest) arg hnomem harg
  unfold longNameOk at h
  rw [Bool.and_eq_true] at h
  unfold parse_long_option_segment
  rw [show ('-' :: '-' :: first :: rest ++ '[' :: '=' :: arg ++ [']'])
      = ('-' :: '-' :: first :: rest) ++ '[' :: '=' :: arg ++ [']'] by simp]
  rw [if_neg (by simp [List.isPrefixOf]),
    if_neg (by simp [List.length_cons])]
  rw [hsplit]
  dsimp only [List.drop]
  rw [if_neg (by simp [h.1]), if_neg (by simp [h.2])]

theorem parse_short_sound (s optPart : List Char) (argForm : Option ArgToken)
    (h : parse_short_option_segment s = some (optPart, argForm)) :
    ∃ c, c.isAlphanum = true ∧ optPart = ['-', c]
      ∧ ((argForm = none ∧ s = ['-', c])
        ∨ (argForm = some ⟨false, ArgSource.attached⟩
            ∧ (∃ arg, arg ≠ [] ∧ s = '-' :: c :: '=' :: arg)
            ∧ ¬ (hasBracketEq s ∧ s.getLast? = some ']'))
        ∨ (argForm = some ⟨true, ArgSource.attached⟩
            ∧ ∃ arg, arg ≠ [] ∧ s = '-' :: c :: '[' :: '=' :: arg ++ [']'])) := by
  unfold parse_short_option_segment at h
  by_cases hcond : ¬ s.head? = some '-' ∨ (['-', '-'].isPrefixOf s) = true
  case pos =>
    rw [if_pos hcond] at h
    cases h
  rw [if_neg hcond] at h
  rw [not_or] at hcond
  have hhead : s.head? = some '-' := not_not.mp hcond.1
  by_cases hlen : s.length < 2
  case pos =>
    rw [if_pos hlen] at h
    cases h
  rw [if_neg hlen] at h
  rcases hs : split_attached_arg_form s with _ | ⟨op, af⟩
  · rw [hs] at h
    cases h
  rw [hs] at h
  dsimp only at h
  rcases hdrop : op.drop 1 with _ | ⟨c, _ | ⟨d, rest2⟩⟩
  · rw [hdrop] at h
    cases h
  rotate_left
  · rw [hdrop] at h
    dsimp only at h
    cases h
  rw [hdrop] at h
  dsimp only at h
  split_ifs at h with hc
  simp only [Option.some.injEq, Prod.mk.injEq] at h
  obtain ⟨hop, haf⟩ := h
  rcases op with _ | ⟨a, op2⟩
  · simp at hdrop
  have hop2 : op2 = [c] := hdrop
  rcases split_attached_sound s (a :: op2) af hs with ⟨haf0, hop0, _⟩ | h2c | h3c
  · have ha : a = '-' := by
      rw [← hop0] at hhead
      simpa using hhead
    refine ⟨c, hc, ?_, Or.inl ⟨?_, ?_⟩⟩
    · rw [← hop, ha, hop2]
    · rw [← haf, haf0]
    · rw [← hop0, ha, hop2]
  · obtain ⟨haf1, ⟨arg, hargne, hdecomp⟩, hprec⟩ := h2c
    have ha : a = '-' := by
      rw [hdecomp] at hhead
      simpa using hhead
    refine ⟨c, hc, ?_, Or.inr (Or.inl ⟨?_, ⟨arg, hargne, ?_⟩, hprec⟩)⟩
    · rw [← hop, ha, hop2]
    · rw [← haf, haf1]
    · rw [hdecomp, ha, hop2]
      rfl
  · obtain ⟨haf1, arg, hargne, hdecomp⟩ := h3c
    have ha : a = '-' := by
      rw [hdecomp] at hhead
      simpa using hhead
    refine ⟨c, hc, ?_, Or.inr (Or.inr ⟨?_, arg, hargne, ?_⟩)⟩
    · rw [← hop, ha, hop2]
    · rw [← haf, haf1]
    · rw [hdecomp, ha, hop2]
      simp

theorem alnum_ne (c d : Char) (hc : c.isAlphanum = true) (hd : d.isAlphanum = false) :
    c ≠ d := by
  intro he
  rw [he, hd] at hc
  cases hc

theorem parse_short_complete_bare (c : Char) (hc : c.isAlphanum = true) :
    parse_short_option_segment ['-', c] = some (['-', c], none) := by
  have hcd : c ≠ '-' := alnum_ne c '-' hc (by decide)
  have hnomem : '=' ∉ ['-', c] := by
    intro hm
    rcases List.mem_cons.mp hm with h1 | hm2
    · exact absurd h1 (by decide)
    rcases List.mem_cons.mp hm2 with h1 | hm3
    · exact absurd h1.symm (alnum_ne c '=' hc (by decide))
    · cases hm3
  unfold parse_short_option_segment
  rw [if_neg (by
      rw [not_or]
      refine ⟨not_not_intro rfl, ?_⟩
      simp only [List.isPrefixOf, Bool.and_eq_true, beq_iff_eq, Bool.and_true]
      intro hpre
      exact hcd hpre.2.symm),
    if_neg (by simp),
    split_attached_complete_bare _ hnomem]
  dsimp only [List.drop]
  rw [if_pos hc]

theorem parse_short_complete_eq (c : Char) (arg : List Char) (hc : c.isAlphanum = true)
    (harg : arg ≠ [])
    (hprec : ¬ (hasBracketEq ('-' :: c :: '=' :: arg)
        ∧ ('-' :: c :: '=' :: arg).getLast? = some ']')) :
    parse_short_option_segment ('-' :: c :: '=' :: arg)
      = some (['-', c], some ⟨false, ArgSource.attached⟩) := by
  have hcd : c ≠ '-' := alnum_ne c '-' hc (by decide)
  have hnomem : '=' ∉ ['-', c] := by
    intro hm
    rcases List.mem_cons.mp hm with h1 | hm2
    · exact absurd h1 (by decide)
    rcases List.mem_cons.mp hm2 with h1 | hm3
    · exact absurd h1.symm (alnum_ne c '=' hc (by decide))
    · cases hm3
  have hsplit := split_attached_complete_eq ['-', c] arg hnomem harg (by simpa using hprec)
  unfold parse_short_option_segment
  rw [if_neg (by
      rw [not_or]
      refine ⟨not_not_intro rfl, ?_⟩
      simp only [List.isPrefixOf, Bool.and_eq_true, beq_iff_eq, Bool.and_true]
      intro hpre
      exact hcd hpre.2.symm),
    if_neg (by simp only [List.length_cons, Nat.not_lt]; omega)]
  rw [show ('-' :: c :: '=' :: arg) = ['-', c] ++ '=' :: arg from rfl]
  rw [hsplit]
  dsimp only [List.drop]
  rw [if_pos hc]

theorem parse_short_complete_br (c : Char) (arg : List Char) (hc : c.isAlphanum = true)
    (harg : arg ≠ []) :
    parse_short_option_segment ('-' :: c :: '[' :: '=' :: arg ++ [']'])
      = some (['-', c], some ⟨true, ArgSource.attached⟩) := by
  have hcd : c ≠ '-' := alnum_ne c '-' hc (by decide)
  have hnomem : '[' ∉ ['-', c] := by
    intro hm
    rcases List.mem_cons.mp hm with h1 | hm2
    · exact absurd h1 (by decide)
    rcases List.mem_cons.mp hm2 with h1 | hm3
    · exact absurd h1.symm (alnum_ne c '[' hc (by decide))
    · cases hm3
  have hsplit := split_attached_complete_br ['-', c] arg hnomem harg
  unfold parse_short_option_segment
  rw [if_neg (by
      rw [not_or]
      refine ⟨not_not_intro rfl, ?_⟩
      simp only [List.isPrefixOf, Bool.and_eq_true, beq_iff_eq, Bool.and_true]
      intro hpre
      exact hcd hpre.2.symm),
    if_neg (by simp only [List.length_append, List.length_cons, Nat.not_lt]; omega)]
  rw [show ('-' :: c :: '[' :: '=' :: arg ++ [']'])
      = ['-', c] ++ '[' :: '=' :: arg ++ [']'] from rfl]
  rw [hsplit]
  dsimp only [List.drop]
  rw [if_pos hc]

theorem eq_dropLast_concat (l : List Char) (c : Char) (h : l.getLast? = some c) :
    l = l.dropLast ++ [c] := by
  have hne : l ≠ [] := by
    intro hc2
    rw [hc2] at h
    cases h
  conv_lhs => rw [← List.dropLast_append_getLast hne]
  rw [List.getLast?_eq_getLast _ hne] at h
  rw [Option.some_inj.mp h]

theorem stripAround_sound (o c : Char) (token inner : List Char)
    (h : stripAround o c token = some inner) : token = o :: inner ++ [c] := by
  unfold stripAround at h
  rcases token with _ | ⟨a, rest⟩
  · cases h
  dsimp only at h
  by_cases hao : a = o
  case neg =>
    rw [if_neg hao] at h
    cases h
  rw [if_pos hao] at h
  by_cases hl : rest.getLast? = some c
  case neg =>
    rw [if_neg hl] at h
    cases h
  rw [if_pos hl] at h
  rw [Option.some_inj] at h
  rw [hao, ← h]
  have h2 := eq_dropLast_concat rest c hl
  conv_lhs => rw [h2]
  simp

theorem stripAround_complete (o c : Char) (inner : List Char) :
    stripAround o c (o :: inner ++ [c]) = some inner := by
  show stripAround o c (o :: (inner ++ [c])) = some inner
  unfold stripAround
  dsimp only
  rw [if_pos rfl,
    if_pos (by rw [List.getLast?_append_of_ne_nil _ (by simp)]; rfl)]
  rw [Option.some_inj, List.dropLast_concat]

theorem classify_some_true_iff (s : List Char) :
    classify_arg_token s = some true ↔ ∃ inner, inner ≠ [] ∧ s = '[' :: inner ++ [']'] := by
  constructor
  · intro h
    unfold classify_arg_token at h
    by_cases he : s.isEmpty = true
    case pos =>
      rw [if_pos he] at h
      cases h
    rw [if_neg he] at h
    rcases h1 : stripAround '[' ']' s with _ | inner
    · rw [h1] at h
      dsimp only at h
      rcases h2 : stripAround '<' '>' s with _ | inner2
      · rw [h2] at h
        dsimp only at h
        split_ifs at h
        all_goals simp at h
      · rw [h2] at h
        dsimp only at h
        split_ifs at h
        all_goals simp at h
    · rw [h1] at h
      dsimp only at h
      by_cases hi : inner.isEmpty = true
      case pos =>
        rw [if_pos hi] at h
        cases h
      rw [if_neg hi] at h
      refine ⟨inner, ?_, stripAround_sound _ _ _ _ h1⟩
      intro hn
      rw [hn] at hi
      exact hi rfl
  · rintro ⟨inner, hne, rfl⟩
    unfold classify_arg_token
    rw [if_neg (by simp), stripAround_complete]
    dsimp only
    rw [if_neg (by simp only [List.isEmpty_iff]; exact hne)]

theorem classify_some_false_iff (s : List Char) :
    classify_arg_token s = some false ↔
      ((∃ inner, inner ≠ [] ∧ s = '<' :: inner ++ ['>'])
        ∨ ((∀ c ∈ s, c.isUpper = true ∨ c.isDigit = true ∨ c = '-' ∨ c = '_')
            ∧ ∃ c ∈ s, c.isUpper = true)) := by
  constructor
  · intro h
    unfold classify_arg_token at h
    by_cases he : s.isEmpty = true
    case pos =>
      rw [if_pos he] at h
      cases h
    rw [if_neg he] at h
    rcases h1 : stripAround '[' ']' s with _ | inner
    · rw [h1] at h
      dsimp only at h
      rcases h2 : stripAround '<' '>' s with _ | inner2
      · rw [h2] at h
        dsimp only at h
        by_cases hu : is_upper_placeholder s = true
        case neg =>
          rw [if_neg hu] at h
          cases h
        refine Or.inr ?_
        unfold is_upper_placeholder at hu
        rw [Bool.and_eq_true] at hu
        constructor
        · intro c hcmem
          have hp := List.all_eq_true.mp hu.1 c hcmem
          simp only [Bool.or_eq_true, decide_eq_true_eq] at hp
          tauto
        · obtain ⟨c, hcmem, hcu⟩ := List.any_eq_true.mp hu.2
          exact ⟨c, hcmem, hcu⟩
      · rw [h2] at h
        dsimp only at h
        by_cases hi : inner2.isEmpty = true
        case pos =>
          rw [if_pos hi] at h
          cases h
        rw [if_neg hi] at h
        refine Or.inl ⟨inner2, ?_, stripAround_sound _ _ _ _ h2⟩
        intro hn
        rw [hn] at hi
        exact hi rfl
    · rw [h1] at h
      dsimp only at h
      split_ifs at h
      all_goals simp at h
  · rintro (⟨inner, hne, rfl⟩ | ⟨hall, c, hcmem, hcu⟩)
    · unfold classify_arg_token
      rw [if_neg (by simp)]
      have h1 : stripAround '[' ']' ('<' :: inner ++ ['>']) = none := by
        show stripAround '[' ']' ('<' :: (inner ++ ['>'])) = none
        unfold stripAround
        dsimp only
        rw [if_neg (by decide)]
      rw [h1]
      dsimp only
      rw [stripAround_complete]
      dsimp only
      rw [if_neg (by simp only [List.isEmpty_iff]; exact hne)]
    · unfold classify_arg_token
      have hne : s ≠ [] := by
        rintro rfl
        cases hcmem
      rw [if_neg (by simp only [List.isEmpty_iff]; exact hne)]
      obtain ⟨a, rest, rfl⟩ : ∃ a rest, s = a :: rest := by
        rcases s with _ | ⟨a, r⟩
        · cases hcmem
        · exact ⟨a, r, rfl⟩
      have haU := hall a (by simp)
      have ha1 : ¬ a = '[' := by
        rcases haU with hx | hx | hx | hx <;>
          (intro he2; rw [he2] at hx; revert hx; decide)
      have ha2 : ¬ a = '<' := by
        rcases haU with hx | hx | hx | hx <;>
          (intro he2; rw [he2] at hx; revert hx; decide)
      have h1 : stripAround '[' ']' (a :: rest) = none := by
        unfold stripAround
        dsimp only
        rw [if_neg ha1]
      have h2 : stripAround '<' '>' (a :: rest) = none := by
        unfold stripAround
        dsimp only
        rw [if_neg ha2]
      rw [h1]
      dsimp only
      rw [h2]
      dsimp only
      have hup : is_upper_placeholder (a :: rest) = true := by
        unfold is_upper_placeholder
        rw [Bool.and_eq_true]
        constructor
        · refine List.all_eq_true.mpr ?_
          intro d hd
          rcases hall d hd with hx | hx | hx | hx <;> simp [hx]
        · exact List.any_eq_true.mpr ⟨c, hcmem, hcu⟩
      rw [if_pos hup]

/-- C7 (amended): the help tokenizer reads a long option exactly as `--`,
one alphanumeric, then alphanumerics or `-`, optionally carrying an
attached `=ARG` (required) — provided the token is not also of the
bracketed shape (containing `[=` and ending in `]`) — or `[=ARG]`
(optional) with non-empty ARG; a short option exactly as `-` plus one
alphanumeric with the same attached forms and the same proviso; an
argument placeholder `[X]` as optional and `<X>` or an all-uppercase
letters/digits/`-`/`_` token with at least one uppercase letter as
required, with empty brackets rejected. -/
theorem C7_token_grammar :
    (∀ s optPart argForm, parse_long_option_segment s = some (optPart, argForm)
        ↔ (∃ name, longNameOk name = true ∧ optPart = '-' :: '-' :: name
            ∧ ((argForm = none ∧ s = '-' :: '-' :: name)
              ∨ (argForm = some ⟨false, ArgSource.attached⟩
                  ∧ (∃ arg, arg ≠ [] ∧ s = '-' :: '-' :: name ++ '=' :: arg)
                  ∧ ¬ (hasBracketEq s ∧ s.getLast? = some ']'))
              ∨ (argForm = some ⟨true, ArgSource.attached⟩
                  ∧ ∃ arg, arg ≠ [] ∧ s = '-' :: '-' :: name ++ '[' :: '=' :: arg ++ [']']))))
    ∧ (∀ s optPart argForm, parse_short_option_segment s = some (optPart, argForm)
        ↔ (∃ c, c.isAlphanum = true ∧ optPart = ['-', c]
            ∧ ((argForm = none ∧ s = ['-', c])
              ∨ (argForm = some ⟨false, ArgSource.attached⟩
                  ∧ (∃ arg, arg ≠ [] ∧ s = '-' :: c :: '=' :: arg)
                  ∧ ¬ (hasBracketEq s ∧ s.getLast? = some ']'))
              ∨ (argForm = some ⟨true, ArgSource.attached⟩
                  ∧ ∃ arg, arg ≠ [] ∧ s = '-' :: c :: '[' :: '=' :: arg ++ [']']))))
    ∧ (∀ s, classify_arg_token s = some true
        ↔ ∃ inner, inner ≠ [] ∧ s = '[' :: inner ++ [']'])
    ∧ (∀ s, classify_arg_token s = some false
        ↔ ((∃ inner, inner ≠ [] ∧ s = '<' :: inner ++ ['>'])
          ∨ ((∀ c ∈ s, c.isUpper = true ∨ c.isDigit = true ∨ c = '-' ∨ c = '_')
              ∧ ∃ c ∈ s, c.isUpper = true))) := by
  refine ⟨fun s optPart argForm => ⟨parse_long_sound s optPart argForm, ?_⟩,
    fun s optPart argForm => ⟨parse_short_sound s optPart argForm, ?_⟩,
    classify_some_true_iff, classify_some_false_iff⟩
  · rintro ⟨name, hnm, rfl, (⟨rfl, rfl⟩ | ⟨haf, ⟨arg, hargne, rfl⟩, hprec⟩
      | ⟨haf, arg, hargne, rfl⟩)⟩
    · exact parse_long_complete_bare name hnm
    · rw [haf]
      exact parse_long_complete_eq name arg hnm hargne hprec
    · rw [haf]
      exact parse_long_complete_br name arg hnm hargne
  · rintro ⟨c, hc, rfl, (⟨rfl, rfl⟩ | ⟨haf, ⟨arg, hargne, rfl⟩, hprec⟩
      | ⟨haf, arg, hargne, rfl⟩)⟩
    · exact parse_short_complete_bare c hc
    · rw [haf]
      exact parse_short_complete_eq c arg hc hargne hprec
    · rw [haf]
      exact parse_short_complete_br c arg hc hargne

/-- C7 counterexample: the token `--a=[=b]` satisfies the claim's long
option grammar (name `a` with attached `=ARG` form, ARG = `[=b]`), yet the
help parser rejects it, because the `[=` precedence makes it read only the
bracketed form and `[=b]` has no matching shape with non-empty name. -/
theorem C7_counterexample :
    originalLongGrammar ("--a=[=b]".data)
      ∧ parse_option_segment ("--a=[=b]".data) = none := by
  constructor
  · exact ⟨['a'], by decide, Or.inr (Or.inl ⟨"[=b]".data, by decide, by decide⟩)⟩
  · rfl

end BinaryMan
